import Mathlib

/-!
Verification development for the MASM (Miden Assembly) symbol-resolution
extension.  The TypeScript source is shallowly embedded: file-system paths
become segment lists, file contents become strings scanned by explicit
character-list parsers standing in for the source's regular expressions, and
the three module-level caches become an explicit state record threaded through
the stateful operations.
-/

namespace Masm

/-- A file-system path, as a list of segments from the root
(`path.join`, `path.dirname` and `path.normalize` become list operations). -/
abbrev Path := List String

/-- The file system: file contents keyed by path, plus the set of directories.
`fs.existsSync` on a path is membership in either list; `statSync(..).isDirectory()`
is membership in `dirs`. -/
structure FS where
  files : List (Path × String)
  dirs : List Path

/-- Association-list lookup (the model of JS `Map.get`). -/
def alookup {α β : Type} [DecidableEq α] : List (α × β) → α → Option β
  | [], _ => none
  | (k, v) :: rest, a => if a = k then some v else alookup rest a

/-- Association-list insert-or-replace (the model of JS `Map.set`). -/
def aset {α β : Type} [DecidableEq α] : List (α × β) → α → β → List (α × β)
  | [], a, b => [(a, b)]
  | (k, v) :: rest, a, b => if a = k then (k, b) :: rest else (k, v) :: aset rest a b

/-- Association-list key-removal (the model of JS `Map.delete`; `Map` keys are
unique, so removing the key's entry is removing every pair with that key). -/
def adel {α β : Type} [DecidableEq α] : List (α × β) → α → List (α × β)
  | [], _ => []
  | (k, v) :: rest, a => if k = a then adel rest a else (k, v) :: adel rest a

theorem alookup_aset {α β : Type} [DecidableEq α] (l : List (α × β)) (a : α) (b : β) (a' : α) :
    alookup (aset l a b) a' = if a' = a then some b else alookup l a' := by
  induction l with
  | nil => by_cases h : a' = a <;> simp [aset, alookup, h]
  | cons kv rest ih =>
    obtain ⟨k, v⟩ := kv
    by_cases hak : a = k
    · subst hak
      by_cases h : a' = a <;> simp [aset, alookup, h]
    · by_cases h : a' = k
      · subst h
        simp [aset, alookup, hak, Ne.symm hak]
      · simp [aset, alookup, hak, h, ih]

theorem alookup_adel {α β : Type} [DecidableEq α] (l : List (α × β)) (a : α) (a' : α) :
    alookup (adel l a) a' = if a' = a then none else alookup l a' := by
  induction l with
  | nil => by_cases h : a' = a <;> simp [adel, alookup, h]
  | cons kv rest ih =>
    obtain ⟨k, v⟩ := kv
    by_cases hka : k = a
    · subst hka
      by_cases h : a' = k
      · subst h
        simp [adel, alookup, ih]
      · simp [adel, alookup, h, ih]
    · by_cases h : a' = k
      · subst h
        simp [adel, alookup, hka, Ne.symm hka, ih]
      · simp [adel, alookup, hka, h, ih]

/-- Read a file's content (`fs.readFileSync`; `none` models a read failure /
missing file, which the source always swallows with `try`/`catch`). -/
def readFileFs (fs : FS) (p : Path) : Option String := alookup fs.files p

def existsFileFs (fs : FS) (p : Path) : Bool := (readFileFs fs p).isSome

def existsDirFs (fs : FS) (p : Path) : Bool := decide (p ∈ fs.dirs)

/-- Model of `fs.existsSync`: true for files and directories alike. -/
def existsPath (fs : FS) (p : Path) : Bool := existsFileFs fs p || existsDirFs fs p

/-- Child-name extraction used by `readdir`: `p` is `d ++ [name]`. -/
def childName (d p : Path) : Option String :=
  if p.dropLast = d then p.getLast? else none

/-- Model of `fs.readdirSync`: names of the immediate children of `d`
(deduplicated, in file-system order).  A missing directory yields `[]`
(the source catches the thrown error). -/
def readdirFs (fs : FS) (d : Path) : List String :=
  ((fs.files.map Prod.fst ++ fs.dirs).filterMap (childName d)).dedup

/-- Model of `path.dirname` on segment paths. -/
def dirname (p : Path) : Path := p.dropLast

/-- Environment variables consulted by the registry locator. -/
structure Env where
  cargoHome : Option Path
  home : Option Path

/-- Model of `process.env.CARGO_HOME || path.join(process.env.HOME || '', '.cargo')`. -/
def cargoHomeOf (env : Env) : Path :=
  match env.cargoHome with
  | some p => p
  | none => (env.home.getD []) ++ [".cargo"]

/-- Model of `<cargoHome>/registry/src`, the root of the external registry cache. -/
def registrySrcOf (env : Env) : Path := cargoHomeOf env ++ ["registry", "src"]

/-! ### Character classes and parsing primitives (the regex layer) -/

def isWordChar (c : Char) : Bool :=
  ('a' ≤ c && c ≤ 'z') || ('A' ≤ c && c ≤ 'Z') || ('0' ≤ c && c ≤ '9') || c = '_'

def isIdentStart (c : Char) : Bool :=
  ('a' ≤ c && c ≤ 'z') || ('A' ≤ c && c ≤ 'Z') || c = '_'

def isUpperStart (c : Char) : Bool := ('A' ≤ c && c ≤ 'Z') || c = '_'

def isUpperRest (c : Char) : Bool := ('A' ≤ c && c ≤ 'Z') || ('0' ≤ c && c ≤ '9') || c = '_'

/-- JS `\s`: whitespace. -/
def isWs (c : Char) : Bool :=
  c = ' ' || c = '\t' || c = '\n' || c = '\r' || c = '\x0b' || c = '\x0c'

/-- Skip `\s*`. -/
def skipWs : List Char → List Char
  | [] => []
  | c :: cs => if isWs c then skipWs cs else c :: cs

/-- Model of `\s+`: at least one whitespace character. -/
def skipWs1 : List Char → Option (List Char)
  | [] => none
  | c :: cs => if isWs c then some (skipWs cs) else none

/-- Match a literal string. -/
def pLit : List Char → List Char → Option (List Char)
  | [], cs => some cs
  | _, [] => none
  | l :: ls, c :: cs => if c = l then pLit ls cs else none

/-- Maximal run of characters satisfying `f` (may be empty). -/
def takeRun (f : Char → Bool) : List Char → List Char × List Char
  | [] => ([], [])
  | c :: cs =>
    if f c then
      match takeRun f cs with
      | (run, rest) => (c :: run, rest)
    else ([], c :: cs)

/-- Model of `[start][rest]*`: an identifier-like token with given first/rest classes. -/
def pTok (start rest : Char → Bool) : List Char → Option (String × List Char)
  | [] => none
  | c :: cs =>
    if start c then
      match takeRun rest cs with
      | (run, rem) => some (⟨c :: run⟩, rem)
    else none

/-- Model of `[a-zA-Z_][a-zA-Z0-9_]*`. -/
def pIdent : List Char → Option (String × List Char) := pTok isIdentStart isWordChar

/-- Model of `[a-zA-Z_$][a-zA-Z0-9_]*` (first segment of a `use` path may begin with `$`). -/
def pIdentD : List Char → Option (String × List Char) :=
  pTok (fun c => isIdentStart c || c = '$') isWordChar

/-- Model of `\w+`: a nonempty word run. -/
def pWord : List Char → Option (String × List Char) := pTok isWordChar isWordChar

/-- Does the character list start with the given literal? -/
def startsWithL (pre l : List Char) : Bool := (pLit pre l).isSome

/-- Does the character list contain the literal as a substring? -/
def containsSub (pre : List Char) : List Char → Bool
  | [] => startsWithL pre []
  | c :: cs => startsWithL pre (c :: cs) || containsSub pre cs

/-- First index at which the literal occurs as a substring. -/
def indexOfSub (pre : List Char) : List Char → Option Nat
  | [] => if startsWithL pre [] then some 0 else none
  | c :: cs =>
    if startsWithL pre (c :: cs) then some 0
    else (indexOfSub pre cs).map (· + 1)

/-- Model of `String.prototype.indexOf`, defaulted to 0 (callers only use it on lines
where the needle is known to occur). -/
def indexOfStr (hay needle : String) : Nat := (indexOfSub needle.data hay.data).getD 0

/-- Split a character list on a single character (`content.split('\n')`). -/
def splitChar (sep : Char) : List Char → List String
  | [] => [""]
  | c :: cs =>
    if c = sep then "" :: splitChar sep cs
    else
      match splitChar sep cs with
      | [] => [⟨[c]⟩]
      | s :: ss => (⟨c :: s.data⟩ : String) :: ss

/-- The lines of a file content (`content.split('\n')`). -/
def linesOf (content : String) : List String := splitChar '\n' content.data

/-- Split on the two-character separator `::` (`importPath.split('::')`). -/
def splitDC : List Char → List String
  | [] => [""]
  | ':' :: ':' :: cs => "" :: splitDC cs
  | c :: cs =>
    match splitDC cs with
    | [] => [⟨[c]⟩]
    | s :: ss => (⟨c :: s.data⟩ : String) :: ss

/-- The `::`-separated parts of an import path. -/
def pathPartsOf (importPath : String) : List String := splitDC importPath.data

/-- Join with a separator (`parts.join('/')`, `String.intercalate`-style). -/
def joinSep (sep : String) : List String → String
  | [] => ""
  | [s] => s
  | s :: rest => s ++ sep ++ joinSep sep rest

/-! ### Line matchers (the source's per-line regular expressions) -/

/-- Model of `(?:::[a-zA-Z_][a-zA-Z0-9_]*)*`: further `::`-prefixed segments of a
`use` path, greedily.  Fuel-driven; each step consumes at least three
characters, so `cs.length` fuel is always enough. -/
def pSegsTail : List Char → Nat → List String × List Char
  | cs, 0 => ([], cs)
  | cs, fuel + 1 =>
    match pLit [':', ':'] cs with
    | none => ([], cs)
    | some rest =>
      match pIdent rest with
      | none => ([], cs)
      | some (seg, rest2) =>
        match pSegsTail rest2 fuel with
        | (segs, rem) => (seg :: segs, rem)

/-- Backtracking for the optional `(?:pub\s+)?` group: try the continuation
after consuming `pub\s+`, and on failure retry without consuming it. -/
def pAfterPub {α : Type} (k : List Char → Option α) (cs : List Char) : Option α :=
  match pLit "pub".data cs with
  | some r =>
    match skipWs1 r with
    | some r2 =>
      match k r2 with
      | some v => some v
      | none => k cs
    | none => k cs
  | none => k cs

/-- Model of `line.match(/^\s*use\s+([a-zA-Z_$][a-zA-Z0-9_]*(?:::[a-zA-Z_][a-zA-Z0-9_]*)*)(?:\s*->\s*([a-zA-Z_][a-zA-Z0-9_]*))?/)`:
yields the full dotted path and the optional alias. -/
def matchUse (line : String) : Option (String × Option String) :=
  match pLit "use".data (skipWs line.data) with
  | none => none
  | some r1 =>
    match skipWs1 r1 with
    | none => none
    | some r2 =>
      match pIdentD r2 with
      | none => none
      | some (seg0, r3) =>
        match pSegsTail r3 r3.length with
        | (segs, r4) =>
          let fullPath := joinSep "::" (seg0 :: segs)
          match pLit ['-', '>'] (skipWs r4) with
          | none => some (fullPath, none)
          | some r5 =>
            match pIdent (skipWs r5) with
            | none => some (fullPath, none)
            | some (a, _) => some (fullPath, some a)

/-- Model of `line.match(/^\s*(?:pub\s+)?use\s+([a-zA-Z_][a-zA-Z0-9_]*)::([a-zA-Z_][a-zA-Z0-9_]*)->([a-zA-Z_][a-zA-Z0-9_]*)/)`:
yields `(module, originalName, exportedName)`. -/
def matchReexport (line : String) : Option (String × String × String) :=
  pAfterPub (fun cs =>
    match pLit "use".data cs with
    | none => none
    | some r1 =>
      match skipWs1 r1 with
      | none => none
      | some r2 =>
        match pIdent r2 with
        | none => none
        | some (m, r3) =>
          match pLit [':', ':'] r3 with
          | none => none
          | some r4 =>
            match pIdent r4 with
            | none => none
            | some (o, r5) =>
              match pLit ['-', '>'] r5 with
              | none => none
              | some r6 =>
                match pIdent r6 with
                | none => none
                | some (e, _) => some (m, o, e)) (skipWs line.data)

/-- Model of `line.match(/^\s*(?:pub\s+)?proc\s+([a-zA-Z_][a-zA-Z0-9_]*)|^\s*export\.([a-zA-Z_][a-zA-Z0-9_]*)/)`:
the declared procedure name (either alternative). -/
def matchProcDecl (line : String) : Option String :=
  match pAfterPub (fun cs =>
      match pLit "proc".data cs with
      | none => none
      | some r1 =>
        match skipWs1 r1 with
        | none => none
        | some r2 => (pIdent r2).map Prod.fst) (skipWs line.data) with
  | some n => some n
  | none =>
    match pLit "export.".data (skipWs line.data) with
    | none => none
    | some r => (pIdent r).map Prod.fst

/-- Model of `line.match(/^\s*(?:pub\s+)?const\s+([A-Z_][A-Z0-9_]*)\s*=/)`:
the declared constant name. -/
def matchConstDecl (line : String) : Option String :=
  pAfterPub (fun cs =>
    match pLit "const".data cs with
    | none => none
    | some r1 =>
      match skipWs1 r1 with
      | none => none
      | some r2 =>
        match pTok isUpperStart isUpperRest r2 with
        | none => none
        | some (n, r3) =>
          match pLit ['='] (skipWs r3) with
          | none => none
          | some _ => some n) (skipWs line.data)

/-! ### The File Index (`parseFile`) -/

/-- One re-export record: `pub use module::originalName->exportedName`. -/
structure Reexp where
  module : String
  originalName : String
  line : Nat
deriving DecidableEq, Repr

/-- Model of `ParsedFile`: the summary built by `parseFile` (all four maps). -/
structure ParsedFile where
  imports : List (String × String)
  procedures : List (String × Nat)
  reexports : List (String × Reexp)
  constants : List (String × Nat)
deriving DecidableEq, Repr

def emptyParsed : ParsedFile := ⟨[], [], [], []⟩

/-- The body of `parseFile`'s per-line loop: all four patterns are checked on
every line, in source order. -/
def parseLineStep (acc : ParsedFile) (i : Nat) (line : String) : ParsedFile :=
  let acc :=
    match matchUse line with
    | some (fullPath, al) =>
      let moduleName := (pathPartsOf fullPath).getLastD ""
      let imps := aset acc.imports moduleName fullPath
      let imps :=
        match al with
        | some a => aset imps a fullPath
        | none => imps
      { acc with imports := imps }
    | none => acc
  let acc :=
    match matchReexport line with
    | some (m, o, e) =>
      let acc2 := { acc with reexports := aset acc.reexports e ⟨m, o, i⟩ }
      if (alookup acc2.imports m).isSome then acc2
      else { acc2 with imports := aset acc2.imports m m }
    | none => acc
  let acc :=
    match matchProcDecl line with
    | some n => { acc with procedures := aset acc.procedures n i }
    | none => acc
  match matchConstDecl line with
  | some n => { acc with constants := aset acc.constants n i }
  | none => acc

def parseLinesGo : ParsedFile → Nat → List String → ParsedFile
  | acc, _, [] => acc
  | acc, i, l :: ls => parseLinesGo (parseLineStep acc i l) (i + 1) ls

/-- Parse a file content into its summary (the loop of `parseFile`). -/
def parseLines (content : String) : ParsedFile := parseLinesGo emptyParsed 0 (linesOf content)

/-- The uncached core of `parseFile`: a read failure (missing / unreadable
file) is swallowed and produces the all-empty summary. -/
def parseFileP (fs : FS) (p : Path) : ParsedFile :=
  match readFileFs fs p with
  | some content => parseLines content
  | none => emptyParsed

/-- The process-wide mutable caches of the extension module. -/
structure St where
  fileCache : List (Path × ParsedFile)
  moduleCache : List ((Path × String) × Option Path)
  namespaceCache : List (Path × List (String × String))
deriving DecidableEq, Repr

def St.empty : St := ⟨[], [], []⟩

/-- Model of `parseFile` with its memoization cache (returns the summary and the
updated cache state). -/
def parseFileC (fs : FS) (p : Path) (σ : St) : ParsedFile × St :=
  match alookup σ.fileCache p with
  | some v => (v, σ)
  | none =>
    let r := parseFileP fs p
    (r, { σ with fileCache := aset σ.fileCache p r })

/-- Model of `clearCache` (build-configuration-driven variant): drop the file's summary
entry, clear the whole resolved-path cache, leave the namespace cache alone. -/
def clearCache (p : Path) (σ : St) : St :=
  { σ with fileCache := adel σ.fileCache p, moduleCache := [] }

/-! ### Project / workspace root discovery -/

/-- Model of `findProjectRoot`: walk up (bounded depth 15) looking for a directory
containing an `asm/` directory. -/
def findProjectRootGo (fs : FS) : Nat → Path → Option Path
  | 0, _ => none
  | n + 1, currentDir =>
    if existsDirFs fs (currentDir ++ ["asm"]) then some currentDir
    else
      let parent := dirname currentDir
      if parent = currentDir then none
      else findProjectRootGo fs n parent

def findProjectRoot (fs : FS) (fromFile : Path) : Option Path :=
  findProjectRootGo fs 15 (dirname fromFile)

/-- Model of `findWorkspaceRoot`: walk up (bounded depth 15) looking for a `Cargo.toml`
whose content contains `[workspace]` (read failures are swallowed). -/
def findWorkspaceRootGo (fs : FS) : Nat → Path → Option Path
  | 0, _ => none
  | n + 1, d =>
    let hit :=
      match readFileFs fs (d ++ ["Cargo.toml"]) with
      | some content => containsSub "[workspace]".data content.data
      | none => false
    if hit then some d
    else
      let parent := dirname d
      if parent = d then none
      else findWorkspaceRootGo fs n parent

def findWorkspaceRoot (fs : FS) (fromFile : Path) : Option Path :=
  findWorkspaceRootGo fs 15 (dirname fromFile)

/-! ### Module-file probing and the external registry locator -/

def endsWithL (suf l : List Char) : Bool := startsWithL suf.reverse l.reverse

/-- Model of `subPath.replace(/\.masm$/, '')`. -/
def stripMasm (s : String) : String :=
  if endsWithL ".masm".data s.data then ⟨s.data.take (s.data.length - 5)⟩ else s

/-- The `name/mod.masm` directory-module fallback path for a sub-path. -/
def modVariant (subPath : List String) : List String :=
  match subPath.getLast? with
  | none => ["mod.masm"]
  | some last => subPath.dropLast ++ [stripMasm last, "mod.masm"]

/-- Model of `tryModulePaths`: the direct file, then the directory's `mod.masm`. -/
def tryModulePaths (fs : FS) (basePath : Path) (subPath : List String) : Option Path :=
  if existsPath fs (basePath ++ subPath) then some (basePath ++ subPath)
  else
    let modPath := basePath ++ modVariant subPath
    if existsPath fs modPath then some modPath else none

/-- Interior segments become a directory prefix; the last segment plus the
`.masm` extension becomes the file name. -/
def mkSubPath (subParts : List String) : List String :=
  subParts.dropLast ++ [subParts.getLastD "" ++ ".masm"]

def isDigitCh (c : Char) : Bool := '0' ≤ c && c ≤ '9'

def digitsToNat (l : List Char) : Nat :=
  l.foldl (fun a c => a * 10 + (c.toNat - '0'.toNat)) 0

/-- Numeric-aware string comparison
(`a.localeCompare(b, undefined, { numeric: true })`), fuel-driven. -/
def natCmpGo : Nat → List Char → List Char → Ordering
  | 0, _, _ => Ordering.eq
  | _, [], [] => Ordering.eq
  | _, [], _ :: _ => Ordering.lt
  | _, _ :: _, [] => Ordering.gt
  | fuel + 1, a :: as, b :: bs =>
    if isDigitCh a && isDigitCh b then
      match takeRun isDigitCh (a :: as), takeRun isDigitCh (b :: bs) with
      | (ra, resta), (rb, restb) =>
        match compare (digitsToNat ra) (digitsToNat rb) with
        | Ordering.eq => natCmpGo fuel resta restb
        | o => o
    else
      match compare a b with
      | Ordering.eq => natCmpGo fuel as bs
      | o => o

def natCmpS (a b : String) : Ordering := natCmpGo (a.data.length + 1) a.data b.data

/-- Insertion sort, descending under the numeric-aware comparison
(`entries.sort((a, b) => b.localeCompare(a, undefined, { numeric: true }))`). -/
def insertDesc (s : String) : List String → List String
  | [] => [s]
  | t :: ts => if natCmpS s t = Ordering.lt then t :: insertDesc s ts else s :: t :: ts

def sortDesc (l : List String) : List String := l.foldr insertDesc []

/-- Loop over candidate version directories of one registry index dir. -/
def scTryVersions (fs : FS) (indexPath : Path) (subPath : List String) :
    List String → Option Path
  | [] => none
  | v :: vs =>
    match tryModulePaths fs (indexPath ++ [v, "asm"]) subPath with
    | some r => some r
    | none => scTryVersions fs indexPath subPath vs

/-- Loop over the registry's index directories. -/
def scTryIndexDirs (fs : FS) (registrySrc : Path) (crateName : String)
    (subPath : List String) : List String → Option Path
  | [] => none
  | d :: ds =>
    let indexPath := registrySrc ++ [d]
    let entries :=
      (readdirFs fs indexPath).filter (fun e => startsWithL (crateName ++ "-").data e.data)
    let r :=
      if entries.isEmpty then none
      else scTryVersions fs indexPath subPath (sortDesc entries)
    match r with
    | some x => some x
    | none => scTryIndexDirs fs registrySrc crateName subPath ds

/-- Model of `searchCargoCache`: scan the external registry cache for a crate's file. -/
def searchCargoCache (fs : FS) (env : Env) (crateName : String)
    (subPath : List String) : Option Path :=
  let registrySrc := registrySrcOf env
  if existsPath fs registrySrc then
    scTryIndexDirs fs registrySrc crateName subPath (readdirFs fs registrySrc)
  else none

/-! ### Namespace discovery from `build.rs` -/

/-- Global-scan driver: at each position try the matcher; on a match record
the capture and continue after the match, otherwise advance one character.
Fuel `l.length` is always sufficient since every step consumes at least one
character (the `lastIndex` discipline of a `/g` regex). -/
def scanAllGo {α : Type} (f : List Char → Option (α × Nat)) : Nat → List Char → List α
  | 0, _ => []
  | _, [] => []
  | fuel + 1, l =>
    match f l with
    | some (a, consumed) => a :: scanAllGo f fuel (l.drop (max consumed 1))
    | none => scanAllGo f fuel l.tail

def scanAll {α : Type} (f : List Char → Option (α × Nat)) (l : List Char) : List α :=
  scanAllGo f l.length l

/-- Greedy `(\w+)SUF` followed by more pattern: the whole word run must end
with the literal suffix, the capture (nonempty) is what precedes it. -/
def dropSuffixIf (suf : List Char) (l : List Char) : Option (List Char) :=
  if endsWithL suf l ∧ suf.length < l.length then some (l.take (l.length - suf.length))
  else none

/-- Model of `:\s*&str\s*=\s*"([^"]+)"`: the quoted value of a string constant. -/
def pQuotedVal (cs : List Char) : Option (String × List Char) :=
  match pLit [':'] cs with
  | none => none
  | some r1 =>
    match pLit "&str".data (skipWs r1) with
    | none => none
    | some r2 =>
      match pLit ['='] (skipWs r2) with
      | none => none
      | some r3 =>
        match pLit ['"'] (skipWs r3) with
        | none => none
        | some r4 =>
          match pTok (fun c => c ≠ '"') (fun c => c ≠ '"') r4 with
          | none => none
          | some (v, r5) =>
            match pLit ['"'] r5 with
            | none => none
            | some r6 => some (v, r6)

/-- One attempt of `/const\s+(\w+)_LIB_NAMESPACE:\s*&str\s*=\s*"([^"]+)"/g`
at the start of `l`; yields `((key, namespaceString), consumedLength)`. -/
def tryLibNSAt (l : List Char) : Option ((String × String) × Nat) :=
  match pLit "const".data l with
  | none => none
  | some r1 =>
    match skipWs1 r1 with
    | none => none
    | some r2 =>
      match pWord r2 with
      | none => none
      | some (w, r3) =>
        match dropSuffixIf "_LIB_NAMESPACE".data w.data with
        | none => none
        | some key =>
          match pQuotedVal r3 with
          | none => none
          | some (v, r4) => some (((⟨key⟩ : String), v), l.length - r4.length)

/-- One attempt of `/const\s+ASM_(\w+)_DIR:\s*&str\s*=\s*"([^"]+)"/g`. -/
def tryAsmDirAt (l : List Char) : Option ((String × String) × Nat) :=
  match pLit "const".data l with
  | none => none
  | some r1 =>
    match skipWs1 r1 with
    | none => none
    | some r2 =>
      match pLit "ASM_".data r2 with
      | none => none
      | some r3 =>
        match pWord r3 with
        | none => none
        | some (w, r4) =>
          match dropSuffixIf "_DIR".data w.data with
          | none => none
          | some key =>
            match pQuotedVal r4 with
            | none => none
            | some (v, r5) => some (((⟨key⟩ : String), v), l.length - r5.length)

/-- One attempt of `/assemble_library_from_dir\s*\([^,]+,\s*"([^"]+)"\)/g`. -/
def tryAssembleAt (l : List Char) : Option (String × Nat) :=
  match pLit "assemble_library_from_dir".data l with
  | none => none
  | some r1 =>
    match pLit ['('] (skipWs r1) with
    | none => none
    | some r2 =>
      match pTok (fun c => c ≠ ',') (fun c => c ≠ ',') r2 with
      | none => none
      | some (_, r3) =>
        match pLit [','] r3 with
        | none => none
        | some r4 =>
          match pLit ['"'] (skipWs r4) with
          | none => none
          | some r5 =>
            match pTok (fun c => c ≠ '"') (fun c => c ≠ '"') r5 with
            | none => none
            | some (v, r6) =>
              match pLit ['"', ')'] r6 with
              | none => none
              | some r7 => some (v, l.length - r7.length)

def scanLibNS (content : String) : List (String × String) := scanAll tryLibNSAt content.data

def scanAsmDirs (content : String) : List (String × String) := scanAll tryAsmDirAt content.data

def scanAssembleNs (content : String) : List String := scanAll tryAssembleAt content.data

/-- Collect regex captures into a JS-object-like association list
(`obj[key] = value`: replace in place or append). -/
def buildObj (l : List (String × String)) : List (String × String) :=
  l.foldl (fun acc kv => aset acc kv.1 kv.2) []

/-- A namespace binding: the owning crate directory and the `asm/`
subdirectory holding the namespace's modules. -/
structure NsEntry where
  crateDir : Path
  asmSubDir : String
deriving DecidableEq, Repr

def nsLastSeg (ns : String) : String := (pathPartsOf ns).getLastD ""

/-- For an `assemble_library_from_dir` namespace with no direct constant pair:
the first directory constant not naming an executable kind and mentioned in
the content. -/
def pickAssembleDir (content : String) : List (String × String) → Option String
  | [] => none
  | (dirKey, dirVal) :: rest =>
    if containsSub "NOTE_SCRIPT".data dirKey.data
        || containsSub "ACCOUNT_COMPONENT".data dirKey.data then
      pickAssembleDir content rest
    else if containsSub ("ASM_" ++ dirKey ++ "_DIR").data content.data then
      some dirVal
    else
      pickAssembleDir content rest

/-- Process one crate's `build.rs` content, accumulating the namespace map and
the (lossy) simple cache. -/
def processCrate (cratesDir : Path) (crate : String) (content : String)
    (acc : List (String × NsEntry) × List (String × String)) :
    List (String × NsEntry) × List (String × String) :=
  let foundNamespaces := buildObj (scanLibNS content)
  let foundDirs := buildObj (scanAsmDirs content)
  let acc1 := foundNamespaces.foldl
    (fun (a : List (String × NsEntry) × List (String × String)) kv =>
      match alookup foundDirs kv.1 with
      | some asmDir =>
        let nss := aset a.1 kv.2 ⟨cratesDir ++ [crate], asmDir⟩
        let simple :=
          if 2 ≤ (pathPartsOf kv.2).length then aset a.2 (nsLastSeg kv.2) asmDir else a.2
        (nss, simple)
      | none => a) acc
  (scanAssembleNs content).foldl
    (fun (a : List (String × NsEntry) × List (String × String)) nspace =>
      if (alookup a.1 nspace).isSome then a
      else
        let nsLast := nsLastSeg nspace
        match pickAssembleDir content foundDirs with
        | some d => (aset a.1 nspace ⟨cratesDir ++ [crate], d⟩, aset a.2 nsLast d)
        | none => (aset a.1 nspace ⟨cratesDir ++ [crate], nsLast⟩, aset a.2 nsLast nsLast)) acc1

/-- Model of `parseBuildRsNamespaces`: scan `crates/*/build.rs` under the workspace
root; memoized per root in the (lossy) namespace cache, whose entries are
re-expanded with an empty `crateDir` and last-segment keys on a hit. -/
def parseBuildRsNamespaces (fs : FS) (workspaceRoot : Path) (σ : St) :
    List (String × NsEntry) × St :=
  match alookup σ.namespaceCache workspaceRoot with
  | some cached => (cached.map (fun kv => (kv.1, NsEntry.mk [] kv.2)), σ)
  | none =>
    let cratesDir := workspaceRoot ++ ["crates"]
    if existsPath fs cratesDir then
      let pair := (readdirFs fs cratesDir).foldl
        (fun acc crate =>
          match readFileFs fs (cratesDir ++ [crate, "build.rs"]) with
          | some content => processCrate cratesDir crate content acc
          | none => acc) ([], [])
      (pair.1, { σ with namespaceCache := aset σ.namespaceCache workspaceRoot pair.2 })
    else
      ([], { σ with namespaceCache := aset σ.namespaceCache workspaceRoot [] })

/-- Model of `findNamespaceAsmDir`: the namespace's entry, trying the name as given
and then with a `miden::` prefix. -/
def findNamespaceAsmDir (fs : FS) (workspaceRoot : Path) (ns : String) (σ : St) :
    Option NsEntry × St :=
  match parseBuildRsNamespaces fs workspaceRoot σ with
  | (namespaces, σ1) =>
    match alookup namespaces ns with
    | some e => (some e, σ1)
    | none =>
      match alookup namespaces ("miden::" ++ ns) with
      | some e => (some e, σ1)
      | none => (none, σ1)

/-! ### The Path Resolver (`resolveModulePath`, build-config-driven variant) -/

/-- Loop over the subdirectories of a crate's `asm/` directory: probe each
actual directory for the sub-path. -/
def searchAsmSubdirs (fs : FS) (asmDir : Path) (subPath : List String) :
    List String → Option Path
  | [] => none
  | s :: ss =>
    let subdirPath := asmDir ++ [s]
    match (if existsDirFs fs subdirPath then tryModulePaths fs subdirPath subPath else none) with
    | some x => some x
    | none => searchAsmSubdirs fs asmDir subPath ss

/-- Loop over every crate: try `crates/<crate>/asm/<ns>` directly, then every
subdirectory of `crates/<crate>/asm`. -/
def searchAllCrates (fs : FS) (cratesDir : Path) (nspace : String)
    (subPath : List String) : List String → Option Path
  | [] => none
  | crate :: rest =>
    match tryModulePaths fs (cratesDir ++ [crate, "asm", nspace]) subPath with
    | some x => some x
    | none =>
      let asmDir := cratesDir ++ [crate, "asm"]
      match
        (if existsPath fs asmDir then searchAsmSubdirs fs asmDir subPath (readdirFs fs asmDir)
         else none) with
      | some x => some x
      | none => searchAllCrates fs cratesDir nspace subPath rest

/-- The `$alias` rule: walk up (bounded depth 5) looking for a `lib/` or a
sibling `shared_modules/` directory containing the file. -/
def dollarWalk (fs : FS) (fileName : String) : Nat → Path → Option Path
  | 0, _ => none
  | n + 1, searchDir =>
    let libDir := searchDir ++ ["lib"]
    match
      (if existsPath fs libDir then
        (if existsPath fs (libDir ++ [fileName]) then some (libDir ++ [fileName]) else none)
       else none) with
    | some x => some x
    | none =>
      let sharedDir := dirname searchDir ++ ["shared_modules"]
      match
        (if existsPath fs sharedDir then
          (if existsPath fs (sharedDir ++ [fileName]) then some (sharedDir ++ [fileName])
           else none)
         else none) with
      | some x => some x
      | none =>
        let parent := dirname searchDir
        if parent = searchDir then none
        else dollarWalk fs fileName n parent

/-- The ordered candidate list of the bare-module rule: same directory, its
`lib/`, the parent directory, the parent's `lib/`. -/
def bareCandidates (currentDir : Path) (fileName : String) : List Path :=
  [currentDir ++ [fileName],
   currentDir ++ ["lib", fileName],
   dirname currentDir ++ [fileName],
   dirname currentDir ++ ["lib", fileName]]

/-- First existing path of an ordered candidate list. -/
def firstExisting (fs : FS) : List Path → Option Path
  | [] => none
  | p :: ps => if existsPath fs p then some p else firstExisting fs ps

/-- The `miden::<ns>` rule for a non-`core` namespace: build-config-driven
workspace search, then local project root, then registry fallbacks. -/
def resolveMidenLocal (fs : FS) (env : Env) (currentFile : Path) (nspace : String)
    (subPath : List String) (σ : St) : Option Path × St :=
  let wsStep : Option Path × St :=
    match findWorkspaceRoot fs currentFile with
    | some workspaceRoot =>
      match findNamespaceAsmDir fs workspaceRoot ("miden::" ++ nspace) σ with
      | (nsInfo, σ1) =>
        let r1 :=
          match nsInfo with
          | some info =>
            match tryModulePaths fs (info.crateDir ++ ["asm", info.asmSubDir]) subPath with
            | some x => some x
            | none =>
              let asmDir := info.crateDir ++ ["asm"]
              if existsPath fs asmDir then
                searchAsmSubdirs fs asmDir subPath (readdirFs fs asmDir)
              else none
          | none => none
        let r2 :=
          match r1 with
          | some x => some x
          | none =>
            let cratesDir := workspaceRoot ++ ["crates"]
            if existsPath fs cratesDir then
              searchAllCrates fs cratesDir nspace subPath (readdirFs fs cratesDir)
            else none
        (r2, σ1)
    | none => (none, σ)
  let r3 :=
    match wsStep.1 with
    | some x => some x
    | none =>
      match findProjectRoot fs currentFile with
      | some projectRoot =>
        let localPath := projectRoot ++ ["asm", nspace] ++ subPath
        if existsPath fs localPath then some localPath else none
      | none => none
  let r4 :=
    match r3 with
    | some x => some x
    | none =>
      match searchCargoCache fs env ("miden-" ++ nspace ++ "-lib") subPath with
      | some x => some x
      | none => searchCargoCache fs env ("miden-" ++ nspace) subPath
  (r4, wsStep.2)

/-- Model of `resolveModulePath` (build-config-driven variant): dispatch on the shape
of the import path, memoized per `(currentFile, importPath)`. -/
def resolveModulePath (fs : FS) (env : Env) (currentFile : Path) (moduleName : String)
    (importPath : String) (σ : St) : Option Path × St :=
  match alookup σ.moduleCache (currentFile, importPath) with
  | some cached => (cached, σ)
  | none =>
    let currentDir := dirname currentFile
    let parts := pathPartsOf importPath
    let step : Option Path × St :=
      if parts.headD "" = "miden" ∧ 3 ≤ parts.length then
        let nspace := parts.getD 1 ""
        let subPath := mkSubPath (parts.drop 2)
        if nspace = "core" then
          (searchCargoCache fs env "miden-core-lib" subPath, σ)
        else
          resolveMidenLocal fs env currentFile nspace subPath σ
      else if parts.headD "" = "std" ∧ 2 ≤ parts.length then
        (searchCargoCache fs env "miden-stdlib" (mkSubPath (parts.drop 1)), σ)
      else if startsWithL ['$'] (parts.headD "").data then
        -- `subParts[subParts.length - 1]` is `undefined` when the path is a
        -- bare `$alias`; JS stringifies it into the file name.
        let fileName :=
          match (parts.drop 1).getLast? with
          | some s => s ++ ".masm"
          | none => "undefined.masm"
        (dollarWalk fs fileName 5 currentDir, σ)
      else if parts.length = 1 then
        (firstExisting fs (bareCandidates currentDir (moduleName ++ ".masm")), σ)
      else
        (none, σ)
    (step.1, { step.2 with moduleCache := aset step.2.moduleCache (currentFile, importPath) step.1 })

/-! ### The Symbol Locator -/

/-- A resolved definition site. -/
structure Location where
  file : Path
  line : Nat
  col : Nat
deriving DecidableEq, Repr

/-- Model of `NAME\b`: the literal name followed by a word boundary. -/
def pNameB (name : String) (cs : List Char) : Bool :=
  match pLit name.data cs with
  | none => false
  | some [] => true
  | some (c :: _) => !isWordChar c

/-- Model of `line.test(/^\s*(?:pub\s+)?proc\s+NAME\b/)`: a direct `proc` definition of
the name (the only pattern the direct scans of `findProcedureSource` use). -/
def matchProcOnlyLine (name : String) (line : String) : Bool :=
  (pAfterPub (fun cs =>
    match pLit "proc".data cs with
    | none => none
    | some r1 =>
      match skipWs1 r1 with
      | none => none
      | some r2 => if pNameB name r2 then some () else none) (skipWs line.data)).isSome

/-- Model of `line.test(/^\s*(?:pub\s+)?proc\s+NAME\b|^\s*export\.NAME\b/)`: the full
definition pattern of `findProcedureInFile`, including `export.` lines. -/
def matchProcExportLine (name : String) (line : String) : Bool :=
  matchProcOnlyLine name line ||
    (match pLit "export.".data (skipWs line.data) with
     | some r => pNameB name r
     | none => false)

/-- Model of `line.test(/^\s*(?:pub\s+)?const\s+NAME\s*=/)`. -/
def matchConstLine (name : String) (line : String) : Bool :=
  (pAfterPub (fun cs =>
    match pLit "const".data cs with
    | none => none
    | some r1 =>
      match skipWs1 r1 with
      | none => none
      | some r2 =>
        match pLit name.data r2 with
        | none => none
        | some r3 =>
          match pLit ['='] (skipWs r3) with
          | none => none
          | some _ => some ()) (skipWs line.data)).isSome

/-- First line (index and text) satisfying the predicate. -/
def findLineGo (pred : String → Bool) : Nat → List String → Option (Nat × String)
  | _, [] => none
  | i, l :: ls => if pred l then some (i, l) else findLineGo pred (i + 1) ls

/-- Model of `findConstantInFile`: scan the file's lines for the constant pattern. -/
def findConstantInFile (fs : FS) (f : Path) (name : String) : Option Location :=
  match readFileFs fs f with
  | none => none
  | some content =>
    match findLineGo (matchConstLine name) 0 (linesOf content) with
    | some (i, l) => some ⟨f, i, indexOfStr l name⟩
    | none => none

/-- Model of `findProcedureInFile`: scan for a `proc`/`export.` definition, then fall
back to the summary's re-export entry (whose recorded line, coming from a
possibly stale cache, can be out of range — the resulting exception is
swallowed into `null`). -/
def findProcedureInFile (fs : FS) (f : Path) (name : String) (σ : St) :
    Option Location × St :=
  match readFileFs fs f with
  | none => (none, σ)
  | some content =>
    let lines := linesOf content
    match findLineGo (matchProcExportLine name) 0 lines with
    | some (i, l) => (some ⟨f, i, indexOfStr l name⟩, σ)
    | none =>
      match parseFileC fs f σ with
      | (pf, σ1) =>
        match alookup pf.reexports name with
        | some re =>
          match lines.get? re.line with
          | some l => (some ⟨f, re.line, indexOfStr l name⟩, σ1)
          | none => (none, σ1)
        | none => (none, σ1)

/-- The raw `proc`-only direct scan performed twice inside
`findProcedureSource` (it bypasses the summary cache). -/
def scanProcOnly (fs : FS) (f : Path) (name : String) : Option Location :=
  match readFileFs fs f with
  | none => none
  | some content =>
    match findLineGo (matchProcOnlyLine name) 0 (linesOf content) with
    | some (i, l) => some ⟨f, i, indexOfStr l name⟩
    | none => none

/-! ### Termination measure for the re-export chase

The recursion of `findProcedureSource` only descends through a `(file, name)`
pair that carries a re-export entry — either freshly parsed from the file
system or served from the summary cache.  Both sources are finite, and every
descent inserts its pair into the visited set, so the pairs still available
strictly shrink. -/

theorem alookup_mem {α β : Type} [DecidableEq α] {l : List (α × β)} {a : α} {b : β}
    (h : alookup l a = some b) : (a, b) ∈ l := by
  induction l with
  | nil => simp [alookup] at h
  | cons kv rest ih =>
    obtain ⟨k, v⟩ := kv
    by_cases hak : a = k
    · subst hak
      simp [alookup] at h
      simp [h]
    · simp [alookup, hak] at h
      exact List.mem_cons_of_mem _ (ih h)

theorem mem_aset {α β : Type} [DecidableEq α] {l : List (α × β)} {a : α} {b : β}
    {x : α × β} (h : x ∈ aset l a b) : x = (a, b) ∨ x ∈ l := by
  induction l with
  | nil => simp [aset] at h; simp [h]
  | cons kv rest ih =>
    obtain ⟨k, v⟩ := kv
    by_cases hak : a = k
    · subst hak
      simp [aset] at h
      rcases h with h | h
      · exact Or.inl (by simp [h])
      · exact Or.inr (List.mem_cons_of_mem _ h)
    · simp [aset, hak] at h
      rcases h with h | h
      · exact Or.inr (by simp [h])
      · rcases ih h with h2 | h2
        · exact Or.inl h2
        · exact Or.inr (List.mem_cons_of_mem _ h2)

/-- The re-export keys contributed by one summary. -/
def reexpKeysOf (p : Path) (pf : ParsedFile) : List (Path × String) :=
  pf.reexports.map (fun kv => (p, kv.1))

/-- All `(file, exportedName)` pairs a fresh parse of any file can produce. -/
def exportedKeys (fs : FS) : Finset (Path × String) :=
  (fs.files.flatMap (fun pc => reexpKeysOf pc.1 (parseLines pc.2))).toFinset

/-- All `(file, exportedName)` pairs the summary cache can produce. -/
def cacheKeys (σ : St) : Finset (Path × String) :=
  (σ.fileCache.flatMap (fun pc => reexpKeysOf pc.1 pc.2)).toFinset

theorem mem_exportedKeys_of_mem {fs : FS} {f : Path} {content : String}
    {n : String} {re : Reexp} (hc : readFileFs fs f = some content)
    (hm : (n, re) ∈ (parseLines content).reexports) : (f, n) ∈ exportedKeys fs := by
  have h1 : (f, content) ∈ fs.files := alookup_mem hc
  simp only [exportedKeys, List.mem_toFinset, List.mem_flatMap]
  refine ⟨(f, content), h1, ?_⟩
  simp only [reexpKeysOf, List.mem_map]
  exact ⟨(n, re), hm, rfl⟩

theorem parseFileC_reexport_key {fs : FS} {f : Path} {σ : St} {n : String} {re : Reexp}
    (h : alookup (parseFileC fs f σ).1.reexports n = some re) :
    (f, n) ∈ exportedKeys fs ∪ cacheKeys σ := by
  unfold parseFileC at h
  cases hc : alookup σ.fileCache f with
  | some pf =>
    rw [hc] at h
    simp only at h
    refine Finset.mem_union_right _ ?_
    simp only [cacheKeys, List.mem_toFinset, List.mem_flatMap]
    refine ⟨(f, pf), alookup_mem hc, ?_⟩
    simp only [reexpKeysOf, List.mem_map]
    exact ⟨(n, re), alookup_mem h, rfl⟩
  | none =>
    rw [hc] at h
    simp only at h
    unfold parseFileP at h
    cases hr : readFileFs fs f with
    | some content =>
      rw [hr] at h
      exact Finset.mem_union_left _ (mem_exportedKeys_of_mem hr (alookup_mem h))
    | none =>
      rw [hr] at h
      simp [emptyParsed, alookup] at h

theorem cacheKeys_parseFileC (fs : FS) (f : Path) (σ : St) :
    cacheKeys (parseFileC fs f σ).2 ⊆ exportedKeys fs ∪ cacheKeys σ := by
  unfold parseFileC
  cases hc : alookup σ.fileCache f with
  | some pf =>
    simp only
    exact Finset.subset_union_right
  | none =>
    simp only
    intro x hx
    simp only [cacheKeys, List.mem_toFinset, List.mem_flatMap] at hx
    obtain ⟨pc, hpc, hxk⟩ := hx
    rcases mem_aset hpc with h | h
    · subst h
      simp only [reexpKeysOf, List.mem_map] at hxk
      obtain ⟨kv, hkv, hx2⟩ := hxk
      obtain ⟨a, b⟩ := kv
      unfold parseFileP at hkv
      cases hr : readFileFs fs f with
      | some content =>
        rw [hr] at hkv
        simp only at hkv
        rw [← hx2]
        exact Finset.mem_union_left _ (mem_exportedKeys_of_mem hr hkv)
      | none =>
        rw [hr] at hkv
        simp [emptyParsed] at hkv
    · refine Finset.mem_union_right _ ?_
      simp only [cacheKeys, List.mem_toFinset, List.mem_flatMap]
      exact ⟨pc, h, hxk⟩

theorem cacheKeys_congr {σ1 σ2 : St} (h : σ1.fileCache = σ2.fileCache) :
    cacheKeys σ1 = cacheKeys σ2 := by
  unfold cacheKeys
  rw [h]

theorem parseBuildRsNamespaces_fileCache (fs : FS) (wr : Path) (σ : St) :
    ((parseBuildRsNamespaces fs wr σ).2).fileCache = σ.fileCache := by
  unfold parseBuildRsNamespaces
  cases alookup σ.namespaceCache wr <;> simp
  split <;> simp

theorem findNamespaceAsmDir_fileCache (fs : FS) (wr : Path) (ns : String) (σ : St) :
    ((findNamespaceAsmDir fs wr ns σ).2).fileCache = σ.fileCache := by
  unfold findNamespaceAsmDir
  have h := parseBuildRsNamespaces_fileCache fs wr σ
  cases hp : parseBuildRsNamespaces fs wr σ with
  | mk nss σ1 =>
    rw [hp] at h
    simp only at h ⊢
    cases alookup nss ns with
    | some e => simpa using h
    | none =>
      cases alookup nss ("miden::" ++ ns) with
      | some e => simpa using h
      | none => simpa using h

theorem resolveMidenLocal_fileCache (fs : FS) (env : Env) (cf : Path)
    (nspace : String) (subPath : List String) (σ : St) :
    ((resolveMidenLocal fs env cf nspace subPath σ).2).fileCache = σ.fileCache := by
  unfold resolveMidenLocal
  cases hw : findWorkspaceRoot fs cf with
  | some wr =>
    simp only
    exact findNamespaceAsmDir_fileCache fs wr ("miden::" ++ nspace) σ
  | none => simp

theorem resolveModulePath_fileCache (fs : FS) (env : Env) (cf : Path)
    (m ip : String) (σ : St) :
    ((resolveModulePath fs env cf m ip σ).2).fileCache = σ.fileCache := by
  unfold resolveModulePath
  cases alookup σ.moduleCache (cf, ip) with
  | some cached => simp
  | none =>
    simp only
    split
    · split
      · simp
      · simp [resolveMidenLocal_fileCache]
    · split
      · simp
      · split
        · simp
        · split <;> simp

/-- The visited-set measure strictly decreases at the recursive call of
`findProcedureSource`: the descent key carries a re-export (so it belongs to
the finite key universe), it was not yet visited, and module resolution never
touches the summary cache. -/
theorem fpsMeasureLt {fs : FS} {σ σ2 : St} {filePath : Path} {procName : String}
    {re : Reexp} {visited : Finset (Path × String)}
    (hv : (filePath, procName) ∉ visited)
    (hre : alookup (parseFileC fs filePath σ).1.reexports procName = some re)
    (h2 : σ2.fileCache = (parseFileC fs filePath σ).2.fileCache) :
    ((exportedKeys fs ∪ cacheKeys σ2) \ insert (filePath, procName) visited).card <
      ((exportedKeys fs ∪ cacheKeys σ) \ visited).card := by
  have hkey : (filePath, procName) ∈ exportedKeys fs ∪ cacheKeys σ :=
    parseFileC_reexport_key hre
  have h3 : exportedKeys fs ∪ cacheKeys σ2 ⊆ exportedKeys fs ∪ cacheKeys σ :=
    Finset.union_subset Finset.subset_union_left
      (by
        rw [cacheKeys_congr h2]
        exact cacheKeys_parseFileC fs filePath σ)
  have h4 : (exportedKeys fs ∪ cacheKeys σ2) \ insert (filePath, procName) visited ⊆
      (exportedKeys fs ∪ cacheKeys σ) \ insert (filePath, procName) visited :=
    Finset.sdiff_subset_sdiff h3 (Finset.Subset.refl _)
  have h5 : (exportedKeys fs ∪ cacheKeys σ) \ insert (filePath, procName) visited ⊂
      (exportedKeys fs ∪ cacheKeys σ) \ visited := by
    rw [Finset.ssubset_iff_of_subset
      (Finset.sdiff_subset_sdiff (Finset.Subset.refl _) (Finset.subset_insert _ _))]
    exact ⟨(filePath, procName), Finset.mem_sdiff.mpr ⟨hkey, hv⟩, by simp⟩
  exact lt_of_le_of_lt (Finset.card_le_card h4) (Finset.card_lt_card h5)

/-- Model of `findProcedureSource`: the ultimate definition site of a procedure,
following re-export chains, with a visited set of `(file, name)` pairs; a
revisited pair returns `none` immediately.  When the recursive chase of a
re-export fails, a direct `proc`-only scan of the target file and then of the
current file serve as fallbacks. -/
def findProcedureSource (fs : FS) (env : Env) (filePath : Path) (procName : String)
    (visited : Finset (Path × String)) (σ : St) : Option Location × St :=
  if hv : (filePath, procName) ∈ visited then (none, σ)
  else
    match hre : alookup (parseFileC fs filePath σ).1.reexports procName with
    | some re =>
      match hrr : resolveModulePath fs env filePath re.module
          ((alookup (parseFileC fs filePath σ).1.imports re.module).getD re.module)
          (parseFileC fs filePath σ).2 with
      | (some targetFile, σ2) =>
        match findProcedureSource fs env targetFile re.originalName
            (insert (filePath, procName) visited) σ2 with
        | (some loc, σ3) => (some loc, σ3)
        | (none, σ3) =>
          match scanProcOnly fs targetFile re.originalName with
          | some loc => (some loc, σ3)
          | none => (scanProcOnly fs filePath procName, σ3)
      | (none, σ2) => (scanProcOnly fs filePath procName, σ2)
    | none => (scanProcOnly fs filePath procName, (parseFileC fs filePath σ).2)
termination_by ((exportedKeys fs ∪ cacheKeys σ) \ visited).card
decreasing_by
  exact fpsMeasureLt hv hre
    (by
      have h1 := congrArg (fun q => (Prod.snd q).fileCache) hrr
      simp only at h1
      rw [← h1]
      exact resolveModulePath_fileCache _ _ _ _ _ _)

/-- Fuel-indexed restatement of `findProcedureSource`, structurally recursive
(so the kernel can evaluate it on concrete inputs); it agrees with
`findProcedureSource` whenever the fuel exceeds the visited-set measure. -/
def fpsFuel (fs : FS) (env : Env) : Nat → Path → String → Finset (Path × String) → St →
    Option Location × St
  | 0, _, _, _, σ => (none, σ)
  | n + 1, filePath, procName, visited, σ =>
    if (filePath, procName) ∈ visited then (none, σ)
    else
      match alookup (parseFileC fs filePath σ).1.reexports procName with
      | some re =>
        match resolveModulePath fs env filePath re.module
            ((alookup (parseFileC fs filePath σ).1.imports re.module).getD re.module)
            (parseFileC fs filePath σ).2 with
        | (some targetFile, σ2) =>
          match fpsFuel fs env n targetFile re.originalName
              (insert (filePath, procName) visited) σ2 with
          | (some loc, σ3) => (some loc, σ3)
          | (none, σ3) =>
            match scanProcOnly fs targetFile re.originalName with
            | some loc => (some loc, σ3)
            | none => (scanProcOnly fs filePath procName, σ3)
        | (none, σ2) => (scanProcOnly fs filePath procName, σ2)
      | none => (scanProcOnly fs filePath procName, (parseFileC fs filePath σ).2)

theorem findProcedureSource_eq_fuel (fs : FS) (env : Env) : ∀ (n : Nat) (filePath : Path)
    (procName : String) (visited : Finset (Path × String)) (σ : St),
    ((exportedKeys fs ∪ cacheKeys σ) \ visited).card < n →
    findProcedureSource fs env filePath procName visited σ =
      fpsFuel fs env n filePath procName visited σ := by
  intro n
  induction n with
  | zero =>
    intro filePath procName visited σ h
    omega
  | succ n ih =>
    intro filePath procName visited σ hm
    rw [findProcedureSource.eq_def]
    show _ = fpsFuel fs env (n + 1) filePath procName visited σ
    unfold fpsFuel
    by_cases hv : (filePath, procName) ∈ visited
    · simp [hv]
    · rw [dif_neg hv, if_neg hv]
      split
      case _ re hre =>
        split
        case _ targetFile σ2 hrr =>
          have h2 : σ2.fileCache = (parseFileC fs filePath σ).2.fileCache := by
            have h1 := congrArg (fun q => (Prod.snd q).fileCache) hrr
            simp only at h1
            rw [← h1]
            exact resolveModulePath_fileCache _ _ _ _ _ _
          have hlt := fpsMeasureLt hv hre h2
          have hrec := ih targetFile re.originalName
            (insert (filePath, procName) visited) σ2 (by omega)
          simp only [hre, hrr, hrec]
        case _ σ2 hrr =>
          simp only [hre, hrr]
      case _ hre =>
        simp only [hre]

/-! ### The Query Front End (definition and hover providers) -/

/-- An open document: its file path and its text, line by line. -/
structure Document where
  path : Path
  lines : List String

/-- A cursor position. -/
structure Position where
  line : Nat
  character : Nat

def strTake (s : String) (k : Nat) : String := ⟨s.data.take k⟩

def strSlice (s : String) (a b : Nat) : String := ⟨(s.data.take b).drop a⟩

def strDrop (s : String) (k : Nat) : String := ⟨s.data.drop k⟩

def containsCharStr (c : Char) (s : String) : Bool := s.data.contains c

def countChar (c : Char) (s : String) : Nat := s.data.count c

/-- Model of `^[A-Z_][A-Z0-9_]*$`. -/
def isUpperName (s : String) : Bool :=
  match s.data with
  | [] => false
  | c :: cs => isUpperStart c && cs.all isUpperRest

/-- Model of `s.trim()`. -/
def trimStr (s : String) : String := ⟨(skipWs ((skipWs s.data).reverse)).reverse⟩

/-- The maximal identifier runs of a line as `(start, endExclusive)` ranges
(the matches of the word regex `[a-zA-Z_][a-zA-Z0-9_]*`), fuel-driven. -/
def identRunsGo : Nat → Nat → List Char → List (Nat × Nat)
  | 0, _, _ => []
  | _, _, [] => []
  | fuel + 1, i, c :: cs =>
    if isIdentStart c then
      match takeRun isWordChar cs with
      | (run, rest) => (i, i + 1 + run.length) :: identRunsGo fuel (i + 1 + run.length) rest
    else identRunsGo fuel (i + 1) cs

/-- Model of `document.getWordRangeAtPosition(position, /[a-zA-Z_][a-zA-Z0-9_]*/)`:
the word range containing the cursor column. -/
def wordRangeAt (line : String) (col : Nat) : Option (Nat × Nat) :=
  (identRunsGo line.data.length 0 line.data).find? (fun r => decide (r.1 ≤ col) && decide (col ≤ r.2))

/-- Model of `linePrefix.match(/(?:exec|call)\.([a-zA-Z_][a-zA-Z0-9_]*)::([a-zA-Z_][a-zA-Z0-9_]*)$/)`:
a qualified call right at the end of the prefix, matched from the right. -/
def execCallAtEnd (linePref : String) : Option (String × String) :=
  match takeRun isWordChar linePref.data.reverse with
  | (w2r, r1) =>
    match w2r.reverse with
    | [] => none
    | c2 :: rest2 =>
      if isIdentStart c2 then
        match pLit [':', ':'] r1 with
        | none => none
        | some r2 =>
          match takeRun isWordChar r2 with
          | (w1r, r3) =>
            match w1r.reverse with
            | [] => none
            | c1 :: rest1 =>
              if isIdentStart c1 then
                match pLit ['.'] r3 with
                | none => none
                | some r4 =>
                  if startsWithL "cexe".data r4 || startsWithL "llac".data r4 then
                    some (⟨c1 :: rest1⟩, ⟨c2 :: rest2⟩)
                  else none
              else none
      else none

/-- Model of `linePrefix.match(/call\.([a-zA-Z_][a-zA-Z0-9_]*)$/)`. -/
def callAtEnd (linePref : String) : Option String :=
  match takeRun isWordChar linePref.data.reverse with
  | (wr, r1) =>
    match wr.reverse with
    | [] => none
    | c :: rest =>
      if isIdentStart c then
        match pLit ['.'] r1 with
        | none => none
        | some r2 => if startsWithL "llac".data r2 then some ⟨c :: rest⟩ else none
      else none

/-- One attempt of the unanchored `(?:exec|call)\.(\w+)::(\w+)` pattern at a
position. -/
def tryExecAt (l : List Char) : Option (String × String) :=
  match (match pLit "exec.".data l with
         | some r => some r
         | none => pLit "call.".data l) with
  | none => none
  | some r1 =>
    match pIdent r1 with
    | none => none
    | some (m, r2) =>
      match pLit [':', ':'] r2 with
      | none => none
      | some r3 => (pIdent r3).map (fun pr => (m, pr.1))

/-- Leftmost match of a positional matcher (`line.match(..)`, unanchored). -/
def findFirstPos {α : Type} (f : List Char → Option α) : List Char → Option α
  | [] => f []
  | c :: cs =>
    match f (c :: cs) with
    | some v => some v
    | none => findFirstPos f cs

def execCallFirst (line : String) : Option (String × String) :=
  findFirstPos tryExecAt line.data

/-- The backward walk collecting `#!` doc-comment lines immediately above a
definition (blank and plain `#` lines are skipped, anything else stops the
walk); the argument is one past the current line index. -/
def docAccum (lines : List String) : Nat → List String → List String
  | 0, acc => acc
  | k + 1, acc =>
    let cl := trimStr (lines.getD k "")
    if startsWithL "#!".data cl.data then
      docAccum lines k (trimStr (strDrop cl 2) :: acc)
    else if cl = "" || startsWithL "#".data cl.data then
      docAccum lines k acc
    else acc

/-- Model of `getProcedureDocumentation`: the doc block above the `proc` definition, or
a one-line fallback naming the procedure and the file's base name. -/
def getProcedureDocumentation (fs : FS) (f : Path) (name : String) : Option String :=
  match readFileFs fs f with
  | none => none
  | some content =>
    let lines := linesOf content
    match findLineGo (matchProcOnlyLine name) 0 lines with
    | none => none
    | some (i, _) =>
      let docLines := docAccum lines i []
      if docLines.isEmpty then
        some ("**" ++ name ++ "** in `" ++ f.getLastD "" ++ "`")
      else
        some ("```\n" ++ joinSep "\n" docLines ++ "\n```")

/-- Loop over the current file's imports, resolving each and scanning it for
the name (patterns 2b and 4 of the definition provider). -/
def searchImportsFor (fs : FS) (env : Env) (docPath : Path) (name : String) :
    List (String × String) → St → Option Location × St
  | [], σ => (none, σ)
  | (moduleName, importPath) :: rest, σ =>
    match resolveModulePath fs env docPath moduleName importPath σ with
    | (some tf, σa) =>
      match findProcedureInFile fs tf name σa with
      | (some loc, σb) => (some loc, σb)
      | (none, σb) => searchImportsFor fs env docPath name rest σb
    | (none, σa) => searchImportsFor fs env docPath name rest σa

/-- Pattern 1 of the definition provider: the cursor is on a `use` line. -/
def defPatUse (fs : FS) (env : Env) (docPath : Path) (line word : String) (σ : St) :
    Option Location × St :=
  match matchUse line with
  | none => (none, σ)
  | some (fullPath, al) =>
    let pathParts := pathPartsOf fullPath
    let step1 : Option Location × St :=
      if al = some word then
        match resolveModulePath fs env docPath (pathParts.getLastD "") fullPath σ with
        | (some tf, σa) => (some ⟨tf, 0, 0⟩, σa)
        | (none, σa) => (none, σa)
      else (none, σ)
    match step1 with
    | (some loc, σa) => (some loc, σa)
    | (none, σa) =>
      if word ∈ pathParts then
        let step2 : Option Location × St :=
          if isUpperName word ∧ pathParts.getLastD "" = word then
            let moduleName :=
              if 2 ≤ pathParts.length then pathParts.getD (pathParts.length - 2) ""
              else pathParts.getD 0 ""
            match resolveModulePath fs env docPath moduleName
                (joinSep "::" pathParts.dropLast) σa with
            | (some tf, σb) =>
              match findConstantInFile fs tf word with
              | some loc => (some loc, σb)
              | none => (none, σb)
            | (none, σb) => (none, σb)
          else (none, σa)
        match step2 with
        | (some loc, σb) => (some loc, σb)
        | (none, σb) =>
          match resolveModulePath fs env docPath (pathParts.getLastD "") fullPath σb with
          | (some tf, σc) => (some ⟨tf, 0, 0⟩, σc)
          | (none, σc) => (none, σc)
      else (none, σa)

/-- Pattern 2 of the definition provider: `exec.module::proc` /
`call.module::proc` ending at the cursor word. -/
def defPatExec (fs : FS) (env : Env) (docPath : Path) (linePref word : String)
    (imports : List (String × String)) (σ : St) : Option Location × St :=
  match execCallAtEnd linePref with
  | none => (none, σ)
  | some (moduleName, procedureName) =>
    let importPath := (alookup imports moduleName).getD moduleName
    match resolveModulePath fs env docPath moduleName importPath σ with
    | (some tf, σa) =>
      if word = moduleName then (some ⟨tf, 0, 0⟩, σa)
      else if word = procedureName then
        match findProcedureSource fs env tf procedureName ∅ σa with
        | (some loc, σb) => (some loc, σb)
        | (none, σb) =>
          match findProcedureInFile fs tf procedureName σb with
          | (some loc, σc) => (some loc, σc)
          | (none, σc) => (none, σc)
      else (none, σa)
    | (none, σa) => (none, σa)

/-- Pattern 2b of the definition provider: an unqualified `call.name` with no
`::` anywhere in the prefix. -/
def defPatCallLocal (fs : FS) (env : Env) (docPath : Path) (linePref : String)
    (imports : List (String × String)) (σ : St) : Option Location × St :=
  match callAtEnd linePref with
  | none => (none, σ)
  | some procedureName =>
    if containsSub [':', ':'] linePref.data then (none, σ)
    else
      match findProcedureInFile fs docPath procedureName σ with
      | (some loc, σa) => (some loc, σa)
      | (none, σa) => searchImportsFor fs env docPath procedureName imports σa

/-- Model of `MasmDefinitionProvider.provideDefinition` (build-config-driven variant):
comment/string guards, then the five reference patterns in order. -/
def provideDefinition (fs : FS) (env : Env) (doc : Document) (pos : Position) (σ : St) :
    Option Location × St :=
  let line := doc.lines.getD pos.line ""
  match wordRangeAt line pos.character with
  | none => (none, σ)
  | some (ws, we) =>
    let word := strSlice line ws we
    let beforeWord := strTake line ws
    let linePref := strTake line we
    if containsCharStr '#' beforeWord then (none, σ)
    else if countChar '"' beforeWord % 2 = 1 then (none, σ)
    else
      match parseFileC fs doc.path σ with
      | (pf, σ1) =>
        match defPatUse fs env doc.path line word σ1 with
        | (some loc, σ2) => (some loc, σ2)
        | (none, σ2) =>
          match defPatExec fs env doc.path linePref word pf.imports σ2 with
          | (some loc, σ3) => (some loc, σ3)
          | (none, σ3) =>
            match defPatCallLocal fs env doc.path linePref pf.imports σ3 with
            | (some loc, σ4) => (some loc, σ4)
            | (none, σ4) =>
              match findProcedureInFile fs doc.path word σ4 with
              | (some loc, σ5) => (some loc, σ5)
              | (none, σ5) => searchImportsFor fs env doc.path word pf.imports σ5

/-- Model of `MasmHoverProvider.provideHover` (build-config-driven variant): the same
guards, then documentation for the procedure of the line's first
`exec.module::proc` reference. -/
def provideHover (fs : FS) (env : Env) (doc : Document) (pos : Position) (σ : St) :
    Option String × St :=
  let line := doc.lines.getD pos.line ""
  match wordRangeAt line pos.character with
  | none => (none, σ)
  | some (ws, we) =>
    let beforeWord := strTake line ws
    if containsCharStr '#' beforeWord then (none, σ)
    else if countChar '"' beforeWord % 2 = 1 then (none, σ)
    else
      let word := strSlice line ws we
      match parseFileC fs doc.path σ with
      | (pf, σ1) =>
        match execCallFirst line with
        | some (moduleName, procedureName) =>
          if word = procedureName then
            match resolveModulePath fs env doc.path moduleName
                ((alookup pf.imports moduleName).getD moduleName) σ1 with
            | (some tf, σ2) =>
              match getProcedureDocumentation fs tf word with
              | some d => (some d, σ2)
              | none => (none, σ2)
            | (none, σ2) => (none, σ2)
          else (none, σ1)
        | none => (none, σ1)

/-- The restriction of a file system to the subtree below `root`. -/
def restrictFS (fs : FS) (root : Path) : FS :=
  ⟨fs.files.filter (fun pc => root.isPrefixOf pc.1),
   fs.dirs.filter (fun p => root.isPrefixOf p)⟩

/-! ### Concrete scenarios used by the verification theorems -/

/-- An environment with no registry-relevant variables set. -/
def plainEnv : Env := ⟨none, none⟩

/-- Model of `CARGO_HOME` pointing at the `c` directory. -/
def regEnv : Env := ⟨some ["c"], none⟩

/-- The two-file cyclic re-export graph of the spec: `a` re-exports `x` from
`b`, and `b` re-exports `x` from `a`. -/
def cycFS : FS :=
  ⟨[(["d", "a.masm"], "pub use b::x->x"),
    (["d", "b.masm"], "pub use a::x->x")],
   [["d"]]⟩

/-- The re-export chase scenario: `caller.masm` calls `acct::get_nonce`,
`acct.masm` re-exports it from `memory`, and `memory.masm` defines it. -/
def c4FS : FS :=
  ⟨[(["d", "caller.masm"], "use acct\nexec.acct::get_nonce"),
    (["d", "acct.masm"], "pub use memory::get_account_nonce->get_nonce"),
    (["d", "memory.masm"], "# doc\nproc get_account_nonce\n  push.1\nend")],
   [["d"]]⟩

def c4Doc : Document :=
  ⟨["d", "caller.masm"], ["use acct", "exec.acct::get_nonce"]⟩

/-- The cache state after indexing `caller.masm`. -/
def c4St1 : St :=
  ⟨[(["d", "caller.masm"], ⟨[("acct", "acct")], [], [], []⟩)], [], []⟩

/-- The cache state after additionally resolving the `acct` import. -/
def c4St2 : St :=
  ⟨[(["d", "caller.masm"], ⟨[("acct", "acct")], [], [], []⟩)],
   [((["d", "caller.masm"], "acct"), some ["d", "acct.masm"])], []⟩

/-- The cache state after the full re-export chase of the `c4` scenario. -/
def c4St3 : St :=
  ⟨[(["d", "caller.masm"], ⟨[("acct", "acct")], [], [], []⟩),
    (["d", "acct.masm"], ⟨[("memory", "memory")], [],
      [("get_nonce", ⟨"memory", "get_account_nonce", 0⟩)], []⟩),
    (["d", "memory.masm"], ⟨[], [("get_account_nonce", 1)], [], []⟩)],
   [((["d", "caller.masm"], "acct"), some ["d", "acct.masm"]),
    ((["d", "acct.masm"], "memory"), some ["d", "memory.masm"])],
   []⟩

/-- A Cargo workspace whose one crate declares the namespace constant pair
`FOO_LIB_NAMESPACE = "miden::foo"`, `ASM_FOO_DIR = "foolib"` in its `build.rs`
and ships `asm/foolib/bar.masm`. -/
def c3FS : FS :=
  ⟨[(["ws", "Cargo.toml"], "[workspace]\nmembers = [\"crates/mycrate\"]"),
    (["ws", "crates", "mycrate", "build.rs"],
      "const FOO_LIB_NAMESPACE: &str = \"miden::foo\";\nconst ASM_FOO_DIR: &str = \"foolib\";"),
    (["ws", "crates", "mycrate", "asm", "foolib", "bar.masm"], "proc bar_main"),
    (["ws", "src", "a.masm"], "use miden::foo::bar"),
    (["ws", "src", "b.masm"], "use miden::foo::bar")],
   [["ws"], ["ws", "src"], ["ws", "crates"], ["ws", "crates", "mycrate"],
    ["ws", "crates", "mycrate", "asm"], ["ws", "crates", "mycrate", "asm", "foolib"]]⟩

/-- A registry cache holding `miden-core-lib` with `asm/mem.masm`, next to a
local project that also has an `asm/core/mem.masm` decoy. -/
def c2FS : FS :=
  ⟨[(["c", "registry", "src", "idx", "miden-core-lib-0.1.0", "asm", "mem.masm"], "proc mem_load"),
    (["proj", "asm", "core", "mem.masm"], "proc local_decoy")],
   [["c"], ["c", "registry"], ["c", "registry", "src"], ["c", "registry", "src", "idx"],
    ["c", "registry", "src", "idx", "miden-core-lib-0.1.0"],
    ["c", "registry", "src", "idx", "miden-core-lib-0.1.0", "asm"],
    ["proj"], ["proj", "asm"], ["proj", "asm", "core"]]⟩

/-- A registry cache holding `miden-stdlib` with `asm/crypto/hashes/blake3.masm`. -/
def c5FS : FS :=
  ⟨[(["c", "registry", "src", "idx", "miden-stdlib-0.8.0", "asm", "crypto", "hashes",
      "blake3.masm"], "proc blake3_hash")],
   [["c"], ["c", "registry"], ["c", "registry", "src"], ["c", "registry", "src", "idx"],
    ["c", "registry", "src", "idx", "miden-stdlib-0.8.0"],
    ["c", "registry", "src", "idx", "miden-stdlib-0.8.0", "asm"],
    ["c", "registry", "src", "idx", "miden-stdlib-0.8.0", "asm", "crypto"],
    ["c", "registry", "src", "idx", "miden-stdlib-0.8.0", "asm", "crypto", "hashes"]]⟩

/-- A bare-module scenario: the module file exists only in the current file's
`lib/` subdirectory. -/
def c7FS : FS :=
  ⟨[(["p", "q", "lib", "util.masm"], "proc helper")],
   [["p"], ["p", "q"], ["p", "q", "lib"]]⟩

/-- A populated cache state for the invalidation theorem's witness. -/
def c9St : St :=
  ⟨[(["f1.masm"], emptyParsed), (["f2.masm"], emptyParsed)],
   [(((["f1.masm"] : Path), "z"), none)],
   [(["f1.masm"], [("a", "b")])]⟩

/-- A file whose only definition of `serialize_data` is an `export.` line. -/
def c10FS : FS :=
  ⟨[(["e", "k.masm"], "export.serialize_data\n  push.1\nend")],
   [["e"]]⟩

/-! ### Registry-frame machinery: `searchCargoCache` only reads below the
registry root, so its result is invariant under any change to the rest of the
file system (in particular to anything under a project or workspace root). -/

theorem alookup_filter {α β : Type} [DecidableEq α] (q : α × β → Bool)
    (l : List (α × β)) (a : α) (hq : ∀ b, q (a, b) = true) :
    alookup (l.filter q) a = alookup l a := by
  induction l with
  | nil => simp
  | cons kv rest ih =>
    obtain ⟨k, v⟩ := kv
    by_cases hak : a = k
    · subst hak
      rw [List.filter_cons, hq v]
      simp [alookup, ih]
    · rw [List.filter_cons]
      cases hqk : q (k, v) <;> simp [alookup, hak, ih]

theorem readFileFs_restrict {fs : FS} {root p : Path} (h : root <+: p) :
    readFileFs (restrictFS fs root) p = readFileFs fs p := by
  unfold readFileFs restrictFS
  exact alookup_filter _ _ _ (fun b => by simpa [List.isPrefixOf_iff_prefix] using h)

theorem existsDirFs_restrict {fs : FS} {root p : Path} (h : root <+: p) :
    existsDirFs (restrictFS fs root) p = existsDirFs fs p := by
  unfold existsDirFs restrictFS
  simp only [List.mem_filter, decide_eq_decide]
  constructor
  · intro hm
    exact hm.1
  · intro hm
    exact ⟨hm, by simpa [List.isPrefixOf_iff_prefix] using h⟩

theorem existsPath_restrict {fs : FS} {root p : Path} (h : root <+: p) :
    existsPath (restrictFS fs root) p = existsPath fs p := by
  unfold existsPath existsFileFs
  rw [readFileFs_restrict h, existsDirFs_restrict h]

theorem childName_prefix {root d p : Path} {x : String} (hd : root <+: d)
    (hc : childName d p = some x) : root <+: p := by
  unfold childName at hc
  by_cases hdp : p.dropLast = d
  · exact hd.trans (hdp ▸ List.dropLast_prefix p)
  · simp [hdp] at hc

theorem filterMap_filter_eq {α β : Type} (f : α → Option β) (q : α → Bool) (l : List α)
    (h : ∀ a, (f a).isSome = true → q a = true) :
    List.filterMap f (l.filter q) = List.filterMap f l := by
  induction l with
  | nil => rfl
  | cons a rest ih =>
    by_cases hq : q a = true
    · rw [List.filter_cons_of_pos hq, List.filterMap_cons, List.filterMap_cons, ih]
    · have hf : f a = none := by
        cases hfa : f a with
        | none => rfl
        | some b => exact absurd (h a (by simp [hfa])) hq
      rw [List.filter_cons_of_neg hq, List.filterMap_cons, hf, ih]

theorem readdirFs_restrict {fs : FS} {root d : Path} (h : root <+: d) :
    readdirFs (restrictFS fs root) d = readdirFs fs d := by
  unfold readdirFs restrictFS
  simp only
  congr 1
  rw [List.filterMap_append, List.filterMap_append, List.filterMap_map, List.filterMap_map]
  congr 1
  · exact filterMap_filter_eq _ _ _ (fun pc hs => by
      simp only [Function.comp] at hs
      cases hc : childName d pc.1 with
      | none => rw [hc] at hs; simp at hs
      | some x =>
        simpa [List.isPrefixOf_iff_prefix] using childName_prefix h hc)
  · exact filterMap_filter_eq _ _ _ (fun p hs => by
      cases hc : childName d p with
      | none => rw [hc] at hs; simp at hs
      | some x =>
        simpa [List.isPrefixOf_iff_prefix] using childName_prefix h hc)

theorem tryModulePaths_restrict {fs : FS} {root base : Path} (sub : List String)
    (h : root <+: base) :
    tryModulePaths (restrictFS fs root) base sub = tryModulePaths fs base sub := by
  unfold tryModulePaths
  simp only [existsPath_restrict (h.trans (List.prefix_append base sub)),
    existsPath_restrict (h.trans (List.prefix_append base (modVariant sub)))]

theorem scTryVersions_restrict {fs : FS} {root ip : Path} (sub : List String)
    (h : root <+: ip) (vs : List String) :
    scTryVersions (restrictFS fs root) ip sub vs = scTryVersions fs ip sub vs := by
  induction vs with
  | nil => rfl
  | cons v rest ih =>
    unfold scTryVersions
    simp only [tryModulePaths_restrict sub (h.trans (List.prefix_append ip [v, "asm"])), ih]

theorem scTryIndexDirs_restrict {fs : FS} {root rs : Path} (c : String)
    (sub : List String) (h : root <+: rs) (ds : List String) :
    scTryIndexDirs (restrictFS fs root) rs c sub ds = scTryIndexDirs fs rs c sub ds := by
  induction ds with
  | nil => rfl
  | cons d rest ih =>
    unfold scTryIndexDirs
    simp only [readdirFs_restrict (h.trans (List.prefix_append rs [d])),
      scTryVersions_restrict sub (h.trans (List.prefix_append rs [d])), ih]

/-- Model of `searchCargoCache` sees only the registry subtree of the file system. -/
theorem searchCargoCache_restrict (fs : FS) (env : Env) (c : String) (sub : List String) :
    searchCargoCache (restrictFS fs (registrySrcOf env)) env c sub =
      searchCargoCache fs env c sub := by
  unfold searchCargoCache
  simp only [existsPath_restrict (List.prefix_refl (registrySrcOf env)),
    readdirFs_restrict (List.prefix_refl (registrySrcOf env)),
    scTryIndexDirs_restrict c sub (List.prefix_refl (registrySrcOf env))]

/-- Two file systems agreeing below the registry root give identical registry
search results: the locator never consults any other part of the file system. -/
theorem searchCargoCache_frame {fs fs2 : FS} (env : Env) (c : String) (sub : List String)
    (h : restrictFS fs (registrySrcOf env) = restrictFS fs2 (registrySrcOf env)) :
    searchCargoCache fs env c sub = searchCargoCache fs2 env c sub := by
  rw [← searchCargoCache_restrict fs env c sub, h, searchCargoCache_restrict]

/-! ### Dispatch lemmas for the Path Resolver rules -/

/-- A fresh `miden::core::<rest>` resolution is exactly the registry search
for `miden-core-lib`. -/
theorem resolveModulePath_core_eq {fs : FS} {env : Env} {cf : Path} {m ip : String}
    {rest : List String} {σ : St}
    (hsplit : pathPartsOf ip = "miden" :: "core" :: rest) (hrest : rest ≠ [])
    (hmiss : alookup σ.moduleCache (cf, ip) = none) :
    (resolveModulePath fs env cf m ip σ).1 =
      searchCargoCache fs env "miden-core-lib" (mkSubPath rest) := by
  have hlen : 1 ≤ rest.length := List.length_pos.mpr hrest
  unfold resolveModulePath
  rw [hmiss]
  simp only [hsplit]
  rw [if_pos (by simp; omega)]
  simp

/-- A fresh `std::<rest>` resolution is exactly the registry search for
`miden-stdlib`. -/
theorem resolveModulePath_std_eq {fs : FS} {env : Env} {cf : Path} {m ip : String}
    {rest : List String} {σ : St}
    (hsplit : pathPartsOf ip = "std" :: rest) (hrest : rest ≠ [])
    (hmiss : alookup σ.moduleCache (cf, ip) = none) :
    (resolveModulePath fs env cf m ip σ).1 =
      searchCargoCache fs env "miden-stdlib" (mkSubPath rest) := by
  have hlen : 1 ≤ rest.length := List.length_pos.mpr hrest
  unfold resolveModulePath
  rw [hmiss]
  simp only [hsplit]
  rw [if_neg (by simp), if_pos (by simp; omega)]
  simp

/-- A fresh single-identifier resolution is the first existing file among the
four ordered relative candidates. -/
theorem resolveModulePath_bare_eq {fs : FS} {env : Env} {cf : Path} {m ip : String}
    {s : String} {σ : St}
    (hsplit : pathPartsOf ip = [s]) (hdollar : startsWithL ['$'] s.data = false)
    (hmiss : alookup σ.moduleCache (cf, ip) = none) :
    (resolveModulePath fs env cf m ip σ).1 =
      firstExisting fs (bareCandidates (dirname cf) (m ++ ".masm")) := by
  unfold resolveModulePath
  rw [hmiss]
  simp only [hsplit]
  rw [if_neg (by simp), if_neg (by simp), if_neg (by simp [hdollar]), if_pos (by simp)]

/-! ### Shared helper lemmas for the claim theorems -/

theorem findLineGo_none {pred : String → Bool} :
    ∀ (ls : List String) (i : Nat), (∀ l ∈ ls, pred l = false) →
      findLineGo pred i ls = none := by
  intro ls
  induction ls with
  | nil => intro i _; rfl
  | cons l rest ih =>
    intro i h
    unfold findLineGo
    rw [h l (by simp)]
    simp only [Bool.false_eq_true, if_false]
    exact ih (i + 1) (fun x hx => h x (by simp [hx]))

theorem findLineGo_isSome {pred : String → Bool} :
    ∀ (ls : List String) (i : Nat), (∃ l ∈ ls, pred l = true) →
      (findLineGo pred i ls).isSome = true := by
  intro ls
  induction ls with
  | nil => intro i h; simp at h
  | cons l rest ih =>
    intro i h
    unfold findLineGo
    by_cases hl : pred l = true
    · simp [hl]
    · rw [if_neg (by simp [hl])]
      obtain ⟨x, hx, hpx⟩ := h
      rcases List.mem_cons.mp hx with hx2 | hx2
      · exact absurd (hx2 ▸ hpx) hl
      · exact ih (i + 1) ⟨x, hx2, hpx⟩

/-- The direct `proc`-only scan of either cyclic file fails for every name:
neither file contains any `proc` line. -/
theorem cyc_scanA (nm : String) : scanProcOnly cycFS ["d", "a.masm"] nm = none := rfl

theorem cyc_scanB (nm : String) : scanProcOnly cycFS ["d", "b.masm"] nm = none := rfl

/-! ### The claim theorems -/

/-- C1.  `findProcedureSource` is total (it is defined by well-founded
recursion on the unvisited re-export keys), a `(file, name)` pair already in
the visited set returns absent immediately, and on the cyclic two-file
re-export graph the lookup of every name from either file returns absent. -/
theorem findProcedureSource_cycle_terminates_absent :
    (∀ (fs : FS) (env : Env) (σ : St) (f : Path) (nm : String)
        (visited : Finset (Path × String)), (f, nm) ∈ visited →
        (findProcedureSource fs env f nm visited σ).1 = none) ∧
    (∀ nm : String,
      (findProcedureSource cycFS plainEnv ["d", "a.masm"] nm ∅ St.empty).1 = none ∧
      (findProcedureSource cycFS plainEnv ["d", "b.masm"] nm ∅ St.empty).1 = none) := by
  constructor
  · intro fs env σ f nm visited h
    rw [findProcedureSource.eq_def]
    simp [h]
  · intro nm
    by_cases h : nm = "x"
    · subst h
      constructor <;>
        (rw [findProcedureSource_eq_fuel _ _ 10 _ _ _ _ (by decide)]; decide)
    · have hpfA : (parseFileC cycFS ["d", "a.masm"] St.empty).1 =
          ⟨[("b", "b")], [], [("x", ⟨"b", "x", 0⟩)], []⟩ := by decide
      have hpfB : (parseFileC cycFS ["d", "b.masm"] St.empty).1 =
          ⟨[("a", "a")], [], [("x", ⟨"a", "x", 0⟩)], []⟩ := by decide
      constructor
      · rw [findProcedureSource.eq_def]
        simp only [Finset.not_mem_empty, dite_false, hpfA]
        split
        case _ re hre =>
          rw [hpfA] at hre
          simp [alookup, h] at hre
        case _ => simp [cyc_scanA nm]
      · rw [findProcedureSource.eq_def]
        simp only [Finset.not_mem_empty, dite_false, hpfB]
        split
        case _ re hre =>
          rw [hpfB] at hre
          simp [alookup, h] at hre
        case _ => simp [cyc_scanB nm]

/-- C1 witness: a concrete visited pair returns absent immediately. -/
theorem findProcedureSource_cycle_witness :
    (((["d", "a.masm"] : Path), "x") ∈ ({((["d", "a.masm"] : Path), "x")} :
        Finset (Path × String))) ∧
    (findProcedureSource cycFS plainEnv ["d", "a.masm"] "x"
        {((["d", "a.masm"] : Path), "x")} St.empty).1 = none :=
  ⟨by decide,
   findProcedureSource_cycle_terminates_absent.1 cycFS plainEnv St.empty
     ["d", "a.masm"] "x" {((["d", "a.masm"] : Path), "x")} (by decide)⟩

/-- C3.  The `FOO_LIB_NAMESPACE`/`ASM_FOO_DIR` constant pair binds
`miden::foo` to the crate with asm subdirectory `foolib`; resolving
`miden::foo::bar` from a file of the workspace yields
`crates/mycrate/asm/foolib/bar.masm`; and a repeated query from another file,
served from the per-workspace namespace cache, yields the same path. -/
theorem buildrs_namespace_binding_and_resolution :
    (parseBuildRsNamespaces c3FS ["ws"] St.empty).1 =
        [("miden::foo", ⟨["ws", "crates", "mycrate"], "foolib"⟩)] ∧
    (resolveModulePath c3FS plainEnv ["ws", "src", "a.masm"] "bar" "miden::foo::bar"
        St.empty).1 = some ["ws", "crates", "mycrate", "asm", "foolib", "bar.masm"] ∧
    alookup ((resolveModulePath c3FS plainEnv ["ws", "src", "a.masm"] "bar"
        "miden::foo::bar" St.empty).2).namespaceCache ["ws"] = some [("foo", "foolib")] ∧
    (resolveModulePath c3FS plainEnv ["ws", "src", "b.masm"] "bar" "miden::foo::bar"
        (resolveModulePath c3FS plainEnv ["ws", "src", "a.masm"] "bar" "miden::foo::bar"
          St.empty).2).1 =
      some ["ws", "crates", "mycrate", "asm", "foolib", "bar.masm"] := by
  refine ⟨by decide, by decide, by decide, by decide⟩

/-- The qualified-call pattern of the definition provider on the `c4`
scenario: the re-export chase lands on the `proc` definition in `memory.masm`. -/
theorem c4_defPatExec_eq : defPatExec c4FS plainEnv ["d", "caller.masm"]
    "exec.acct::get_nonce" "get_nonce" [("acct", "acct")] c4St1 =
    (some ⟨["d", "memory.masm"], 1, 5⟩, c4St3) := by
  have he : execCallAtEnd "exec.acct::get_nonce" = some ("acct", "get_nonce") := by decide
  have hli : (alookup [(("acct" : String), ("acct" : String))] "acct").getD "acct" = "acct" := by
    decide
  have h3 : resolveModulePath c4FS plainEnv ["d", "caller.masm"] "acct" "acct" c4St1 =
      (some ["d", "acct.masm"], c4St2) := by decide
  have h4 : findProcedureSource c4FS plainEnv ["d", "acct.masm"] "get_nonce" ∅ c4St2 =
      fpsFuel c4FS plainEnv 10 ["d", "acct.masm"] "get_nonce" ∅ c4St2 :=
    findProcedureSource_eq_fuel _ _ 10 _ _ _ _ (by decide)
  unfold defPatExec
  rw [he]
  simp only [hli, h3, h4]
  decide

/-- C4.  A definition query on `get_nonce` at its qualified call site, with
`pub use memory::get_account_nonce->get_nonce` in the imported module,
resolves the `memory` module and returns the `proc get_account_nonce`
definition line inside it — not the re-export line of `acct.masm`, which is
where the plain per-file scan (`findProcedureInFile`) would point. -/
theorem reexport_query_lands_on_definition :
    (provideDefinition c4FS plainEnv c4Doc ⟨1, 13⟩ St.empty).1 =
        some ⟨["d", "memory.masm"], 1, 5⟩ ∧
    (linesOf "# doc\nproc get_account_nonce\n  push.1\nend").getD 1 "" =
        "proc get_account_nonce" ∧
    (findProcedureInFile c4FS ["d", "acct.masm"] "get_nonce" St.empty).1 =
        some ⟨["d", "acct.masm"], 0, 35⟩ ∧
    (["d", "memory.masm"] : Path) ≠ ["d", "acct.masm"] := by
  refine ⟨?_, by decide, by decide, by decide⟩
  have h1 : parseFileC c4FS ["d", "caller.masm"] St.empty =
      (⟨[("acct", "acct")], [], [], []⟩, c4St1) := by decide
  have h2 : defPatUse c4FS plainEnv ["d", "caller.masm"] "exec.acct::get_nonce"
      "get_nonce" c4St1 = (none, c4St1) := by decide
  have hw : wordRangeAt "exec.acct::get_nonce" 13 = some (11, 20) := by decide
  have hl : c4Doc.lines.getD (Position.mk 1 13).line "" = "exec.acct::get_nonce" := by decide
  have hst : strSlice "exec.acct::get_nonce" 11 20 = "get_nonce" := by decide
  have hbt : strTake "exec.acct::get_nonce" 11 = "exec.acct::" := by decide
  have hlt : strTake "exec.acct::get_nonce" 20 = "exec.acct::get_nonce" := by decide
  have hcont : containsCharStr '#' "exec.acct::" = false := by decide
  have hcnt : countChar '"' "exec.acct::" = 0 := by decide
  have hdp : c4Doc.path = ["d", "caller.masm"] := rfl
  unfold provideDefinition
  rw [hl]
  simp only [hw]
  simp [hst, hbt, hlt, hcont, hcnt, hdp, h1, h2, c4_defPatExec_eq]

theorem parseLineStep_id {acc : ParsedFile} {i : Nat} {l : String}
    (hu : matchUse l = none) (hr2 : matchReexport l = none)
    (hp : matchProcDecl l = none) (hc : matchConstDecl l = none) :
    parseLineStep acc i l = acc := by
  unfold parseLineStep
  simp only [hu, hr2, hp, hc]

theorem parseLinesGo_id : ∀ (ls : List String) (acc : ParsedFile) (i : Nat),
    (∀ l ∈ ls, matchUse l = none ∧ matchReexport l = none ∧
      matchProcDecl l = none ∧ matchConstDecl l = none) →
    parseLinesGo acc i ls = acc := by
  intro ls
  induction ls with
  | nil => intro acc i _; rfl
  | cons l rest ih =>
    intro acc i h
    unfold parseLinesGo
    have hl := h l (by simp)
    rw [parseLineStep_id hl.1 hl.2.1 hl.2.2.1 hl.2.2.2]
    exact ih acc (i + 1) (fun x hx => h x (by simp [hx]))

/-- C2.  A fresh `miden::core::<rest>` resolution returns exactly the
external-registry search for the fixed package `miden-core-lib`, and the
result is invariant under any change to the file system outside the registry
root — no local search under any project or workspace root can affect it.  If
the registry yields nothing, the result is absent. -/
theorem core_import_registry_only :
    ∀ (fs : FS) (env : Env) (cf : Path) (m ip : String) (rest : List String) (σ : St),
      pathPartsOf ip = "miden" :: "core" :: rest → rest ≠ [] →
      alookup σ.moduleCache (cf, ip) = none →
      ((resolveModulePath fs env cf m ip σ).1 =
          searchCargoCache fs env "miden-core-lib" (mkSubPath rest) ∧
        ∀ fs2 : FS, restrictFS fs (registrySrcOf env) = restrictFS fs2 (registrySrcOf env) →
          (resolveModulePath fs env cf m ip σ).1 = (resolveModulePath fs2 env cf m ip σ).1) := by
  intro fs env cf m ip rest σ hsplit hrest hmiss
  refine ⟨resolveModulePath_core_eq hsplit hrest hmiss, ?_⟩
  intro fs2 hagree
  rw [resolveModulePath_core_eq hsplit hrest hmiss,
    @resolveModulePath_core_eq fs2 env cf m ip rest σ hsplit hrest hmiss]
  exact searchCargoCache_frame env _ _ hagree

/-- C2 witness: `miden::core::mem` in a file system where a local
`proj/asm/core/mem.masm` decoy exists resolves to the registry search result. -/
theorem core_import_registry_only_witness :
    pathPartsOf "miden::core::mem" = "miden" :: "core" :: ["mem"] ∧
    (["mem"] : List String) ≠ [] ∧
    alookup St.empty.moduleCache ((["proj", "x.masm"] : Path), "miden::core::mem") = none ∧
    (resolveModulePath c2FS regEnv ["proj", "x.masm"] "mem" "miden::core::mem" St.empty).1 =
      searchCargoCache c2FS regEnv "miden-core-lib" (mkSubPath ["mem"]) :=
  ⟨by decide, by decide, by decide,
   (core_import_registry_only c2FS regEnv ["proj", "x.masm"] "mem" "miden::core::mem"
     ["mem"] St.empty (by decide) (by decide) (by decide)).1⟩

/-- C5.  A fresh `std::<rest>` resolution returns exactly the
external-registry search for the fixed package `miden-stdlib`; interior
segments become the sub-directory prefix and the last segment plus `.masm`
the file name (`crypto/hashes/blake3.masm` for the claim's import); the
result is invariant under any change outside the registry root. -/
theorem std_import_registry_only :
    ∀ (fs : FS) (env : Env) (cf : Path) (m ip : String) (rest : List String) (σ : St),
      pathPartsOf ip = "std" :: rest → rest ≠ [] →
      alookup σ.moduleCache (cf, ip) = none →
      ((resolveModulePath fs env cf m ip σ).1 =
          searchCargoCache fs env "miden-stdlib" (mkSubPath rest) ∧
        mkSubPath ["crypto", "hashes", "blake3"] = ["crypto", "hashes", "blake3.masm"] ∧
        ∀ fs2 : FS, restrictFS fs (registrySrcOf env) = restrictFS fs2 (registrySrcOf env) →
          (resolveModulePath fs env cf m ip σ).1 = (resolveModulePath fs2 env cf m ip σ).1) := by
  intro fs env cf m ip rest σ hsplit hrest hmiss
  refine ⟨resolveModulePath_std_eq hsplit hrest hmiss, by decide, ?_⟩
  intro fs2 hagree
  rw [resolveModulePath_std_eq hsplit hrest hmiss,
    @resolveModulePath_std_eq fs2 env cf m ip rest σ hsplit hrest hmiss]
  exact searchCargoCache_frame env _ _ hagree

/-- C5 witness: `std::crypto::hashes::blake3` resolves to the registry search
of `miden-stdlib` at `crypto/hashes/blake3.masm`. -/
theorem std_import_registry_only_witness :
    pathPartsOf "std::crypto::hashes::blake3" = "std" :: ["crypto", "hashes", "blake3"] ∧
    (["crypto", "hashes", "blake3"] : List String) ≠ [] ∧
    alookup St.empty.moduleCache ((["proj", "x.masm"] : Path), "std::crypto::hashes::blake3") =
      none ∧
    (resolveModulePath c5FS regEnv ["proj", "x.masm"] "blake3" "std::crypto::hashes::blake3"
        St.empty).1 =
      searchCargoCache c5FS regEnv "miden-stdlib" (mkSubPath ["crypto", "hashes", "blake3"]) :=
  ⟨by decide, by decide, by decide,
   (std_import_registry_only c5FS regEnv ["proj", "x.masm"] "blake3"
     "std::crypto::hashes::blake3" ["crypto", "hashes", "blake3"] St.empty
     (by decide) (by decide) (by decide)).1⟩

/-- C7.  A fresh single-identifier (no `::`, not `$`-rooted) resolution tries,
in exactly this order: the current file's directory, its `lib/` subdirectory,
the parent directory, the parent's `lib/` subdirectory — returning the first
existing file and absent when none exists. -/
theorem bare_import_candidate_order :
    ∀ (fs : FS) (env : Env) (cf : Path) (m ip s : String) (σ : St),
      pathPartsOf ip = [s] → startsWithL ['$'] s.data = false →
      alookup σ.moduleCache (cf, ip) = none →
      (resolveModulePath fs env cf m ip σ).1 =
        firstExisting fs
          [dirname cf ++ [m ++ ".masm"],
           dirname cf ++ ["lib", m ++ ".masm"],
           dirname (dirname cf) ++ [m ++ ".masm"],
           dirname (dirname cf) ++ ["lib", m ++ ".masm"]] := by
  intro fs env cf m ip s σ hsplit hdollar hmiss
  rw [resolveModulePath_bare_eq hsplit hdollar hmiss]
  rfl

/-- C7 witness: a bare `util` import from `p/q/cur.masm` takes the second
candidate, `p/q/lib/util.masm`. -/
theorem bare_import_candidate_order_witness :
    pathPartsOf "util" = ["util"] ∧
    startsWithL ['$'] "util".data = false ∧
    alookup St.empty.moduleCache ((["p", "q", "cur.masm"] : Path), "util") = none ∧
    (resolveModulePath c7FS plainEnv ["p", "q", "cur.masm"] "util" "util" St.empty).1 =
      firstExisting c7FS
        [dirname ["p", "q", "cur.masm"] ++ ["util.masm"],
         dirname ["p", "q", "cur.masm"] ++ ["lib", "util.masm"],
         dirname (dirname ["p", "q", "cur.masm"]) ++ ["util.masm"],
         dirname (dirname ["p", "q", "cur.masm"]) ++ ["lib", "util.masm"]] :=
  ⟨by decide, by decide, by decide,
   bare_import_candidate_order c7FS plainEnv ["p", "q", "cur.masm"] "util" "util" "util"
     St.empty (by decide) (by decide) (by decide)⟩

/-- C6.  If a `#` occurs before the word under the cursor, or the number of
double quotes before it is odd, both the definition lookup and the hover
lookup return absent. -/
theorem comment_string_guard_absent :
    ∀ (fs : FS) (env : Env) (doc : Document) (pos : Position) (σ : St) (ws we : Nat),
      wordRangeAt (doc.lines.getD pos.line "") pos.character = some (ws, we) →
      (containsCharStr '#' (strTake (doc.lines.getD pos.line "") ws) = true ∨
        countChar '"' (strTake (doc.lines.getD pos.line "") ws) % 2 = 1) →
      (provideDefinition fs env doc pos σ).1 = none ∧
        (provideHover fs env doc pos σ).1 = none := by
  intro fs env doc pos σ ws we hw hg
  constructor
  · unfold provideDefinition
    simp only [hw]
    rcases hg with hg | hg
    · rw [if_pos hg]
    · by_cases h1 : containsCharStr '#' (strTake (doc.lines.getD pos.line "") ws) = true
      · rw [if_pos h1]
      · rw [if_neg h1, if_pos hg]
  · unfold provideHover
    simp only [hw]
    rcases hg with hg | hg
    · rw [if_pos hg]
    · by_cases h1 : containsCharStr '#' (strTake (doc.lines.getD pos.line "") ws) = true
      · rw [if_pos h1]
      · rw [if_neg h1, if_pos hg]

/-- C6 witness: a cursor on `foo` in the comment line `# foo` yields neither
a definition nor a hover. -/
theorem comment_string_guard_absent_witness :
    wordRangeAt ((Document.mk ["d", "caller.masm"] ["# foo"]).lines.getD
        (Position.mk 0 3).line "") (Position.mk 0 3).character = some (2, 5) ∧
    (containsCharStr '#' (strTake ((Document.mk ["d", "caller.masm"] ["# foo"]).lines.getD
        (Position.mk 0 3).line "") 2) = true ∨
      countChar '"' (strTake ((Document.mk ["d", "caller.masm"] ["# foo"]).lines.getD
        (Position.mk 0 3).line "") 2) % 2 = 1) ∧
    (provideDefinition c4FS plainEnv (Document.mk ["d", "caller.masm"] ["# foo"])
        (Position.mk 0 3) St.empty).1 = none ∧
    (provideHover c4FS plainEnv (Document.mk ["d", "caller.masm"] ["# foo"])
        (Position.mk 0 3) St.empty).1 = none := by
  refine ⟨by decide, Or.inl (by decide), ?_, ?_⟩
  · exact (comment_string_guard_absent c4FS plainEnv _ _ St.empty 2 5 (by decide)
      (Or.inl (by decide))).1
  · exact (comment_string_guard_absent c4FS plainEnv _ _ St.empty 2 5 (by decide)
      (Or.inl (by decide))).2

/-- C8.  Indexing never raises: an unreadable file yields the all-empty
summary, and indexing a readable file none of whose lines matches any
declaration pattern yields the same all-empty summary. -/
theorem parse_failure_empty_summary :
    (∀ (fs : FS) (p : Path) (σ : St), readFileFs fs p = none →
      alookup σ.fileCache p = none → (parseFileC fs p σ).1 = emptyParsed) ∧
    (∀ (fs : FS) (p : Path) (σ : St) (content : String),
      readFileFs fs p = some content → alookup σ.fileCache p = none →
      (∀ l ∈ linesOf content, matchUse l = none ∧ matchReexport l = none ∧
        matchProcDecl l = none ∧ matchConstDecl l = none) →
      (parseFileC fs p σ).1 = emptyParsed) := by
  constructor
  · intro fs p σ hr hm
    unfold parseFileC
    rw [hm]
    simp only
    unfold parseFileP
    rw [hr]
  · intro fs p σ content hr hm hnone
    unfold parseFileC
    rw [hm]
    simp only
    unfold parseFileP
    rw [hr]
    unfold parseLines
    exact parseLinesGo_id _ _ _ hnone

/-- C8 witness: indexing a missing file yields the all-empty summary. -/
theorem parse_failure_empty_summary_witness :
    readFileFs cycFS ["nofile.masm"] = none ∧
    alookup St.empty.fileCache (["nofile.masm"] : Path) = none ∧
    (parseFileC cycFS ["nofile.masm"] St.empty).1 = emptyParsed :=
  ⟨by decide, by decide,
   parse_failure_empty_summary.1 cycFS ["nofile.masm"] St.empty (by decide) (by decide)⟩

/-- C9.  `clearCache p` removes exactly `p`'s file-summary entry (every other
entry is unchanged), clears the whole resolved-path cache, and leaves the
namespace cache untouched. -/
theorem clear_cache_exact_frame :
    ∀ (σ : St) (p : Path),
      (∀ q, q ≠ p → alookup (clearCache p σ).fileCache q = alookup σ.fileCache q) ∧
      alookup (clearCache p σ).fileCache p = none ∧
      (clearCache p σ).moduleCache = [] ∧
      (clearCache p σ).namespaceCache = σ.namespaceCache := by
  intro σ p
  refine ⟨?_, ?_, rfl, rfl⟩
  · intro q hq
    show alookup (adel σ.fileCache p) q = _
    rw [alookup_adel]
    exact if_neg hq
  · show alookup (adel σ.fileCache p) p = none
    rw [alookup_adel]
    exact if_pos rfl

/-- C9 witness: invalidating `f1.masm` in a populated state leaves
`f2.masm`'s entry intact. -/
theorem clear_cache_exact_frame_witness :
    ((["f2.masm"] : Path) ≠ ["f1.masm"]) ∧
    alookup (clearCache ["f1.masm"] c9St).fileCache ["f2.masm"] =
      alookup c9St.fileCache ["f2.masm"] ∧
    alookup (clearCache ["f1.masm"] c9St).fileCache ["f1.masm"] = none ∧
    (clearCache ["f1.masm"] c9St).moduleCache = [] ∧
    (clearCache ["f1.masm"] c9St).namespaceCache = c9St.namespaceCache :=
  ⟨by decide,
   (clear_cache_exact_frame c9St ["f1.masm"]).1 ["f2.masm"] (by decide),
   (clear_cache_exact_frame c9St ["f1.masm"]).2.1,
   (clear_cache_exact_frame c9St ["f1.masm"]).2.2.1,
   (clear_cache_exact_frame c9St ["f1.masm"]).2.2.2⟩

/-- C10.  For a file whose only definition of a name is an `export.` line and
whose summary has no re-export for it, `findProcedureSource` returns absent
(its direct scans match only `proc` lines) while `findProcedureInFile` finds
the definition. -/
theorem export_only_definition_source_miss :
    ∀ (fs : FS) (env : Env) (f : Path) (nm : String) (σ : St) (content : String),
      readFileFs fs f = some content →
      alookup σ.fileCache f = none →
      alookup (parseLines content).reexports nm = none →
      (∀ l ∈ linesOf content, matchProcOnlyLine nm l = false) →
      (∃ l ∈ linesOf content, matchProcExportLine nm l = true) →
      (findProcedureSource fs env f nm ∅ σ).1 = none ∧
        ((findProcedureInFile fs f nm σ).1).isSome = true := by
  intro fs env f nm σ content hread hmiss hnore hnoproc hexp
  have hpc : (parseFileC fs f σ).1 = parseLines content := by
    unfold parseFileC
    rw [hmiss]
    simp only
    unfold parseFileP
    rw [hread]
  constructor
  · rw [findProcedureSource.eq_def]
    simp only [Finset.not_mem_empty, dite_false]
    split
    case _ re hre =>
      rw [hpc, hnore] at hre
      simp at hre
    case _ =>
      simp only
      unfold scanProcOnly
      rw [hread]
      simp only
      rw [findLineGo_none _ _ hnoproc]
  · unfold findProcedureInFile
    rw [hread]
    simp only
    have h2 := @findLineGo_isSome (matchProcExportLine nm) (linesOf content) 0 hexp
    cases hf : findLineGo (matchProcExportLine nm) 0 (linesOf content) with
    | none =>
      rw [hf] at h2
      simp at h2
    | some pr =>
      obtain ⟨i2, l2⟩ := pr
      simp

/-- C10 witness: `serialize_data` defined only by an `export.` line is found
by the per-file scan but missed by the re-export chase. -/
theorem export_only_definition_source_miss_witness :
    readFileFs c10FS ["e", "k.masm"] = some "export.serialize_data\n  push.1\nend" ∧
    alookup St.empty.fileCache (["e", "k.masm"] : Path) = none ∧
    alookup (parseLines "export.serialize_data\n  push.1\nend").reexports "serialize_data" =
      none ∧
    (findProcedureSource c10FS plainEnv ["e", "k.masm"] "serialize_data" ∅ St.empty).1 =
        none ∧
      ((findProcedureInFile c10FS ["e", "k.masm"] "serialize_data" St.empty).1).isSome =
        true :=
  ⟨by decide, by decide, by decide,
   export_only_definition_source_miss c10FS plainEnv ["e", "k.masm"] "serialize_data"
     St.empty "export.serialize_data\n  push.1\nend" (by decide) (by decide) (by decide)
     (by decide) (⟨"export.serialize_data", by decide, by decide⟩)⟩

end Masm
